import Mathlib

/-!
# Verification of the dependency-resolving node-graph migration engine

Shallow embedding of the core of `data_migration_tool`: the Subgraph
Composer (`update_subgraph.py`), the Reference Remapper
(`universal_metadata_updater.py`), the Dependency Resolver, Node Store
fetch and Migratability Classifier (`universal_subgraph_migration.py`),
and the Creation Scheduler (`universal_node_creator.py`).

Python dicts with string keys are embedded as association lists
(`List (String × String)` etc.) looked up with first-match semantics;
a missing dict key whose read always supplies a default is embedded as
a total field holding that default; a key that may be absent with no
default is an `Option`.  Python truthiness of a string is `s ≠ ""`
(`None` and `""` behave identically in every guarded read modelled
here).  The remote API is a parameter: a pure snapshot function from
node id to `Option Node`, and for creation an oracle from node id and
predecessor list to a creation outcome.
-/

namespace Migration

/-- First-match lookup in an association list, i.e. `dict.get(k)`.
Every dict modelled here is written with fresh keys only, so first-match
lookup agrees with Python dict lookup. -/
def alookup {α : Type} (m : List (String × α)) (k : String) : Option α :=
  match m with
  | [] => none
  | (k', v) :: rest => if k' = k then some v else alookup rest k

theorem alookup_append {α : Type} (m₁ m₂ : List (String × α)) (k : String) :
    alookup (m₁ ++ m₂) k = (alookup m₁ k).or (alookup m₂ k) := by
  induction m₁ with
  | nil => simp [alookup, Option.or]
  | cons p rest ih =>
    by_cases h : p.1 = k
    · simp [alookup, h, Option.or]
    · simpa [alookup, h] using ih

theorem alookup_eq_some_of_mem {α : Type} (m : List (String × α)) (k : String)
    (v : α) (hnd : (m.map Prod.fst).Nodup) (hmem : (k, v) ∈ m) :
    alookup m k = some v := by
  induction m with
  | nil => cases hmem
  | cons p rest ih =>
    rcases List.mem_cons.1 hmem with rfl | hmem'
    · simp [alookup]
    · have hk : p.1 ≠ k := by
        intro h
        have : k ∈ rest.map Prod.fst := List.mem_map.2 ⟨(k, v), hmem', rfl⟩
        rw [List.map_cons, List.nodup_cons] at hnd
        exact hnd.1 (h ▸ this)
      have := ih (by rw [List.map_cons, List.nodup_cons] at hnd; exact hnd.2) hmem'
      simpa [alookup, hk] using this

/-- `dict.get(k, k)`: the mapped value when present, otherwise `k` itself. -/
def lookupD (m : List (String × String)) (k : String) : String :=
  (alookup m k).getD k

/-- `k in dict`. -/
def amem {α : Type} (m : List (String × α)) (k : String) : Bool :=
  (alookup m k).isSome

/-! ## Subgraph Composer (`update_subgraph.py`) -/

/-- Loop body of `map_and_preserve_all_nodes`: a mapped (or
node-reference-resolved) id goes to the `mapped_nodes` list, an unmapped
one to the `unmapped_nodes` list. -/
def mapn_step (node_id_mapping node_references : List (String × String))
    (acc : List String × List String) (node_id : String) :
    List String × List String :=
  match alookup node_id_mapping node_id with
  | some new_id => (acc.1 ++ [new_id], acc.2)
  | none =>
    match alookup node_references node_id with
    | some ref_id => (acc.1 ++ [ref_id], acc.2)
    | none => (acc.1, acc.2 ++ [node_id])

/-- `map_and_preserve_all_nodes` (update_subgraph.py lines 103-115):
maps each original member through `node_id_mapping`, falls back to
`node_references`, and appends the remaining (unmapped) ids unchanged
after the mapped ones; also returns the unmapped count. -/
def map_and_preserve_all_nodes (original_nodes : List String)
    (node_id_mapping node_references : List (String × String)) :
    List String × Nat :=
  ((original_nodes.foldl (mapn_step node_id_mapping node_references) ([], [])).1 ++
     (original_nodes.foldl (mapn_step node_id_mapping node_references) ([], [])).2,
   (original_nodes.foldl (mapn_step node_id_mapping node_references) ([], [])).2.length)

/-- One step of the `merge_steps` loop: append `nid` unless already seen.
The Python code keeps a separate `seen` set; since `merged` holds exactly
the seen elements, membership in the accumulator is the same test. -/
def insertSeen (acc : List String) (nid : String) : List String :=
  if nid ∈ acc then acc else acc ++ [nid]

/-- `merge_steps` (update_subgraph.py lines 118-125): concatenate the
existing live membership with the mapped members and keep the first
occurrence of each id. (`_normalize_ids` is `str` over each element,
the identity on the string ids modelled here.) -/
def merge_steps (existing_steps mapped_steps : List String) : List String :=
  (existing_steps ++ mapped_steps).foldl insertSeen []

/-- `create_subgraphs_from_original`'s step-mapping loop
(universal_node_creator.py lines 694-704): members found in the mapping
are replaced by their new id; members with no mapping entry are *not*
included in the output and are only counted. -/
def creator_step (node_id_mapping : List (String × String))
    (acc : List String × Nat) (step : String) : List String × Nat :=
  match alookup node_id_mapping step with
  | some new_id => (acc.1 ++ [new_id], acc.2)
  | none => (acc.1, acc.2 + 1)

def creator_map_steps (original_steps : List String)
    (node_id_mapping : List (String × String)) : List String × Nat :=
  original_steps.foldl (creator_step node_id_mapping) ([], 0)

/-! ### Composer lemmas -/

theorem foldl_insertSeen_split (l : List String) :
    ∀ acc : List String, ∃ r : List String,
      l.foldl insertSeen acc = acc ++ r ∧ r.Sublist l ∧
      (∀ x ∈ r, x ∉ acc) ∧
      (acc.Nodup → (acc ++ r).Nodup) ∧
      (∀ x, x ∈ acc ++ r ↔ x ∈ acc ∨ x ∈ l) := by
  induction l with
  | nil =>
    intro acc
    exact ⟨[], by simp, by simp, by simp, by simp, by simp⟩
  | cons y ys ih =>
    intro acc
    by_cases hy : y ∈ acc
    · obtain ⟨r, h1, h2, h3, h4, h5⟩ := ih acc
      refine ⟨r, ?_, h2.cons y, h3, h4, ?_⟩
      · simpa [List.foldl_cons, insertSeen, hy] using h1
      · intro x
        constructor
        · intro hx
          rcases (h5 x).1 hx with h | h
          · exact Or.inl h
          · exact Or.inr (List.mem_cons_of_mem _ h)
        · intro hx
          rcases hx with h | h
          · exact (h5 x).2 (Or.inl h)
          · rcases List.mem_cons.1 h with h | h
            · exact (h5 x).2 (Or.inl (h ▸ hy))
            · exact (h5 x).2 (Or.inr h)
    · obtain ⟨r, h1, h2, h3, h4, h5⟩ := ih (acc ++ [y])
      refine ⟨y :: r, ?_, h2.cons₂ y, ?_, ?_, ?_⟩
      · simpa [List.foldl_cons, insertSeen, hy, List.append_assoc] using h1
      · intro x hx
        rcases List.mem_cons.1 hx with rfl | hx
        · exact hy
        · intro hxa
          exact h3 x hx (by simp [hxa])
      · intro hacc
        have : (acc ++ [y]).Nodup := by
          simp [List.nodup_append, hacc, hy]
        have := h4 this
        simpa [List.append_assoc] using this
      · intro x
        have h5' := h5 x
        constructor
        · intro hx
          rcases List.mem_append.1 hx with h | h
          · exact Or.inl h
          · rcases List.mem_cons.1 h with rfl | h
            · exact Or.inr (List.mem_cons_self _ _)
            · rcases (h5' ).1 (by simp [h]) with h' | h'
              · rcases List.mem_append.1 h' with h'' | h''
                · exact Or.inl h''
                · simp at h''
                  exact Or.inr (by simp [h''])
              · exact Or.inr (List.mem_cons_of_mem _ h')
        · intro hx
          rcases hx with h | h
          · exact List.mem_append.2 (Or.inl h)
          · rcases List.mem_cons.1 h with rfl | h
            · exact List.mem_append.2 (Or.inr (List.mem_cons_self _ _))
            · have : x ∈ (acc ++ [y]) ++ r := (h5').2 (Or.inr h)
              rcases List.mem_append.1 this with h' | h'
              · rcases List.mem_append.1 h' with h'' | h''
                · exact List.mem_append.2 (Or.inl h'')
                · simp at h''
                  exact List.mem_append.2 (Or.inr (by simp [h'']))
              · exact List.mem_append.2 (Or.inr (List.mem_cons_of_mem _ h'))

theorem merge_steps_nodup (e m : List String) : (merge_steps e m).Nodup := by
  obtain ⟨r, h1, _, _, h4, _⟩ := foldl_insertSeen_split (e ++ m) []
  unfold merge_steps
  rw [h1]
  simpa using h4 (by simp)

theorem merge_steps_sublist (e m : List String) :
    (merge_steps e m).Sublist (e ++ m) := by
  obtain ⟨r, h1, h2, _, _, _⟩ := foldl_insertSeen_split (e ++ m) []
  unfold merge_steps
  rw [h1]
  simpa using h2

theorem mem_merge_steps (e m : List String) (x : String) :
    x ∈ merge_steps e m ↔ x ∈ e ∨ x ∈ m := by
  obtain ⟨r, h1, _, _, _, h5⟩ := foldl_insertSeen_split (e ++ m) []
  unfold merge_steps
  rw [h1]
  simpa using h5 x

theorem foldl_insertSeen_absorb (l : List String) :
    ∀ acc : List String, (∀ x ∈ l, x ∈ acc) → l.foldl insertSeen acc = acc := by
  induction l with
  | nil => intro acc _; rfl
  | cons y ys ih =>
    intro acc h
    have hy : y ∈ acc := h y (List.mem_cons_self _ _)
    have := ih acc (fun x hx => h x (List.mem_cons_of_mem _ hx))
    simpa [List.foldl_cons, insertSeen, hy] using this

theorem foldl_insertSeen_nodup_id (l : List String) :
    ∀ acc : List String, (acc ++ l).Nodup → l.foldl insertSeen acc = acc ++ l := by
  induction l with
  | nil => intro acc _; simp
  | cons y ys ih =>
    intro acc h
    have hy : y ∉ acc := by
      intro hmem
      have := List.disjoint_of_nodup_append h
      exact this hmem (List.mem_cons_self _ _)
    have h' : ((acc ++ [y]) ++ ys).Nodup := by
      simpa [List.append_assoc] using h
    have := ih (acc ++ [y]) h'
    simp only [List.foldl_cons, insertSeen, hy, if_neg hy]
    simpa [List.append_assoc] using this

theorem map_and_preserve_foldl (μ refs : List (String × String)) :
    ∀ (l : List String) (a b : List String),
      l.foldl (mapn_step μ refs) (a, b) =
      (a ++ l.filterMap (fun x => (alookup μ x).or (alookup refs x)),
       b ++ l.filter (fun x => ((alookup μ x).or (alookup refs x)).isNone)) := by
  intro l
  induction l with
  | nil => intro a b; simp
  | cons x xs ih =>
    intro a b
    rcases hx : alookup μ x with _ | y
    · rcases hr : alookup refs x with _ | z
      · simpa [List.foldl_cons, mapn_step, hx, hr, Option.or,
          List.append_assoc] using ih a (b ++ [x])
      · simpa [List.foldl_cons, mapn_step, hx, hr, Option.or,
          List.append_assoc] using ih (a ++ [z]) b
    · simpa [List.foldl_cons, mapn_step, hx, Option.or,
        List.append_assoc] using ih (a ++ [y]) b

theorem creator_map_steps_foldl (μ : List (String × String)) :
    ∀ (l : List String) (a : List String) (n : Nat),
      l.foldl (creator_step μ) (a, n) =
      (a ++ l.filterMap (alookup μ),
       n + (l.filter (fun x => !(amem μ x))).length) := by
  intro l
  induction l with
  | nil => intro a n; simp
  | cons x xs ih =>
    intro a n
    rcases hx : alookup μ x with _ | y
    · simpa [List.foldl_cons, creator_step, hx, amem, List.append_assoc,
        Nat.add_comm, Nat.add_left_comm, Nat.add_assoc] using ih a (n + 1)
    · simpa [List.foldl_cons, creator_step, hx, amem, List.append_assoc] using ih (a ++ [y]) n

/-! ### C5 / C6 claim theorems -/

/-- **C5** — Composer idempotence: re-running `merge_steps` with the first
run's output as the current live membership changes nothing; the merged
list has no duplicates and is a subsequence of (existing ++ mapped), i.e.
it keeps each id at its first occurrence. -/
theorem composer_idempotent (e m : List String) :
    merge_steps (merge_steps e m) m = merge_steps e m ∧
    (merge_steps e m).Nodup ∧
    (merge_steps e m).Sublist (e ++ m) := by
  refine ⟨?_, merge_steps_nodup e m, merge_steps_sublist e m⟩
  have hnd := merge_steps_nodup e m
  have h1 : (merge_steps e m).foldl insertSeen [] = merge_steps e m := by
    simpa using foldl_insertSeen_nodup_id (merge_steps e m) [] (by simpa using hnd)
  show ((merge_steps e m) ++ m).foldl insertSeen [] = merge_steps e m
  rw [List.foldl_append, h1]
  exact foldl_insertSeen_absorb m (merge_steps e m)
    (fun x hx => (mem_merge_steps e m x).2 (Or.inr hx))

/-- **C6 counterexample** — the claim that every member id with no mapping
entry passes through unchanged into the output member list fails on the
node creator's subgraph-creation path: with member list `["node-x"]` and an
empty identifier mapping, the produced step list is empty (the unmapped
member is dropped, only counted). -/
theorem creator_drops_unmapped_counterexample :
    creator_map_steps ["node-x"] [] = ([], 1) ∧
    "node-x" ∉ (creator_map_steps ["node-x"] []).1 := by
  constructor
  · rfl
  · intro h
    rw [show (creator_map_steps ["node-x"] []).1 = [] from rfl] at h
    exact List.not_mem_nil _ h

/-- **C6 amended** — in the in-place subgraph updater
(`map_and_preserve_all_nodes`), a member id that is a key of the identifier
mapping is replaced by its mapped value; an id absent from the mapping but
present in the node-references table is replaced by the referenced id; every
remaining id passes through unchanged into the output, and the unmapped
count is exactly the number of such ids.  In the node creator's subgraph
creation (`create_subgraphs_from_original`), members with no mapping entry
are dropped from the output step list and only counted: its output is the
list of mapped values of the members that are keys. -/
theorem composer_unmapped_passthrough (orig : List String)
    (μ refs : List (String × String)) :
    (map_and_preserve_all_nodes orig μ refs).1 =
      orig.filterMap (fun x => (alookup μ x).or (alookup refs x)) ++
      orig.filter (fun x => ((alookup μ x).or (alookup refs x)).isNone) ∧
    (∀ x ∈ orig, alookup μ x = none → alookup refs x = none →
        x ∈ (map_and_preserve_all_nodes orig μ refs).1) ∧
    (∀ x ∈ orig, ∀ y, alookup μ x = some y →
        y ∈ (map_and_preserve_all_nodes orig μ refs).1) ∧
    (∀ x ∈ orig, ∀ y, alookup μ x = none → alookup refs x = some y →
        y ∈ (map_and_preserve_all_nodes orig μ refs).1) ∧
    (map_and_preserve_all_nodes orig μ refs).2 =
      (orig.filter (fun x => ((alookup μ x).or (alookup refs x)).isNone)).length ∧
    (creator_map_steps orig μ).1 = orig.filterMap (alookup μ) ∧
    (creator_map_steps orig μ).2 =
      (orig.filter (fun x => !(amem μ x))).length := by
  have hfold := map_and_preserve_foldl μ refs orig [] []
  have hcre := creator_map_steps_foldl μ orig [] 0
  refine ⟨?_, ?_, ?_, ?_, ?_, ?_, ?_⟩
  · unfold map_and_preserve_all_nodes
    rw [hfold]
    simp
  · intro x hx hμ hr
    unfold map_and_preserve_all_nodes
    rw [hfold]
    simp only [List.nil_append]
    refine List.mem_append.2 (Or.inr ?_)
    exact List.mem_filter.2 ⟨hx, by simp [hμ, hr, Option.or]⟩
  · intro x hx y hy
    unfold map_and_preserve_all_nodes
    rw [hfold]
    simp only [List.nil_append]
    refine List.mem_append.2 (Or.inl ?_)
    exact List.mem_filterMap.2 ⟨x, hx, by simp [hy, Option.or]⟩
  · intro x hx y hμ hr
    unfold map_and_preserve_all_nodes
    rw [hfold]
    simp only [List.nil_append]
    refine List.mem_append.2 (Or.inl ?_)
    exact List.mem_filterMap.2 ⟨x, hx, by simp [hμ, hr, Option.or]⟩
  · unfold map_and_preserve_all_nodes
    rw [hfold]
    simp
  · unfold creator_map_steps
    rw [hcre]
    simp
  · unfold creator_map_steps
    rw [hcre]
    simp

/-- Witness for `composer_unmapped_passthrough` at a concrete input:
member list `[keyed, reffy, free]`, mapping sending `keyed` to
`mapped-1`, node references sending `reffy` to `ref-1`: the output is the
mapped values in member order followed by the pass-through member, and
each clause is exercised. -/
theorem composer_unmapped_passthrough_witness :
    (map_and_preserve_all_nodes ["keyed", "reffy", "free"]
        [("keyed", "mapped-1")] [("reffy", "ref-1")]).1 =
      ["mapped-1", "ref-1", "free"] ∧
    "free" ∈ (map_and_preserve_all_nodes ["keyed", "reffy", "free"]
        [("keyed", "mapped-1")] [("reffy", "ref-1")]).1 ∧
    "mapped-1" ∈ (map_and_preserve_all_nodes ["keyed", "reffy", "free"]
        [("keyed", "mapped-1")] [("reffy", "ref-1")]).1 ∧
    "ref-1" ∈ (map_and_preserve_all_nodes ["keyed", "reffy", "free"]
        [("keyed", "mapped-1")] [("reffy", "ref-1")]).1 := by
  have h := composer_unmapped_passthrough ["keyed", "reffy", "free"]
    [("keyed", "mapped-1")] [("reffy", "ref-1")]
  refine ⟨?_, h.2.1 "free" (by decide) (by decide) (by decide),
    h.2.2.1 "keyed" (by decide) "mapped-1" (by decide),
    h.2.2.2.1 "reffy" (by decide) "ref-1" (by decide) (by decide)⟩
  rw [h.1]
  decide

/-! ## Reference Remapper (`universal_metadata_updater.py`) -/

/-- A column reference: `{nodeID, columnID}`.  A missing or `None` field is
modelled as `""` (both are falsy in every guard the code applies). -/
structure ColumnReference where
  nodeID : String
  columnID : String
  deriving DecidableEq

/-- A column source: `{transform, columnReferences}`. -/
structure ColumnSource where
  transform : String
  columnReferences : List ColumnReference
  deriving DecidableEq

/-- A column descriptor.  `columnID`, `defaultValue`, `primaryKey` and
`config` may be absent (`none`); the remaining keys are read with a
default, so they are total.  `config` stands for the verbatim-copied
config dict. -/
structure Column where
  name : String
  dataType : String
  nullable : Bool
  description : String
  columnID : Option String
  defaultValue : Option String
  primaryKey : Option Bool
  sources : List ColumnSource
  config : Option String
  deriving DecidableEq

/-- A source-mapping entry.  `join` and `customSQL` stand for the
verbatim-copied sub-dicts. -/
structure SourceMap where
  aliases : List (String × String)
  customSQL : String
  dependencies : List String
  join : String
  name : String
  noLinkRefs : List String
  deriving DecidableEq

/-- Node metadata: `{columns, sourceMapping, cteString?, appliedNodeTests?,
enabledColumnTestIDs?}`.  An absent `sourceMapping` reads back as `[]`. -/
structure Metadata where
  columns : List Column
  sourceMapping : List SourceMap
  cteString : Option String
  appliedNodeTests : Option String
  enabledColumnTestIDs : Option String
  deriving DecidableEq

/-- Rebuild of one column reference (universal_metadata_updater.py lines
346-357): kept only when both ids are truthy, with the node id sent
through `node_id_mapping.get(id, id)`. -/
def properRef (μ : List (String × String)) (r : ColumnReference) :
    Option ColumnReference :=
  if r.nodeID ≠ "" ∧ r.columnID ≠ "" then
    some { nodeID := lookupD μ r.nodeID, columnID := r.columnID }
  else none

/-- Rebuild of one column source (lines 338-359). -/
def properSource (μ : List (String × String)) (s : ColumnSource) : ColumnSource :=
  { transform := s.transform
    columnReferences := s.columnReferences.filterMap (properRef μ) }

/-- Rebuild of one column (lines 313-367).  `str()` is the identity on the
string-modelled fields; a falsy `defaultValue` is dropped. -/
def properCol (μ : List (String × String)) (c : Column) : Column :=
  { name := c.name
    dataType := c.dataType
    nullable := c.nullable
    description := c.description
    columnID := c.columnID
    defaultValue :=
      match c.defaultValue with
      | some s => if s ≠ "" then some s else none
      | none => none
    primaryKey := c.primaryKey
    sources := c.sources.map (properSource μ)
    config := c.config }

/-- Rebuild of one source-mapping entry (lines 369-390): every alias value
goes through the identical `get(id, id)` substitution; the other fields are
copied. -/
def properSourceMap (μ : List (String × String)) (sm : SourceMap) : SourceMap :=
  { aliases := sm.aliases.map (fun p => (p.1, lookupD μ p.2))
    customSQL := sm.customSQL
    dependencies := sm.dependencies
    join := sm.join
    name := sm.name
    noLinkRefs := sm.noLinkRefs }

/-- `build_proper_metadata` (universal_metadata_updater.py lines 301-410).
Returns `none` when the original metadata has no columns. -/
def build_proper_metadata (original_metadata : Metadata)
    (node_id_mapping : List (String × String)) : Option Metadata :=
  if original_metadata.columns = [] then none
  else
    some
      { columns := original_metadata.columns.map (properCol node_id_mapping)
        sourceMapping :=
          original_metadata.sourceMapping.map (properSourceMap node_id_mapping)
        cteString := original_metadata.cteString
        appliedNodeTests := original_metadata.appliedNodeTests
        enabledColumnTestIDs := original_metadata.enabledColumnTestIDs }

/-! ### C1: the remap-correctness property, stated from the spec -/

/-- The spec's substitution rule for a single reference: the node id is the
mapped value when the original id is a key of the mapping, and unchanged
otherwise; the column id is unchanged. -/
def RefRemapped (μ : List (String × String)) (r r' : ColumnReference) : Prop :=
  r'.columnID = r.columnID ∧
  ((∃ v, alookup μ r.nodeID = some v ∧ r'.nodeID = v) ∨
   (alookup μ r.nodeID = none ∧ r'.nodeID = r.nodeID))

/-- Transform text preserved, references pointwise remapped. -/
def SourceRemapped (μ : List (String × String)) (s s' : ColumnSource) : Prop :=
  s'.transform = s.transform ∧
  List.Forall₂ (RefRemapped μ) s.columnReferences s'.columnReferences

/-- All non-reference column fields preserved, sources pointwise remapped. -/
def ColumnRemapped (μ : List (String × String)) (c c' : Column) : Prop :=
  c'.name = c.name ∧ c'.dataType = c.dataType ∧ c'.nullable = c.nullable ∧
  c'.description = c.description ∧ c'.columnID = c.columnID ∧
  c'.defaultValue = c.defaultValue ∧ c'.primaryKey = c.primaryKey ∧
  c'.config = c.config ∧
  List.Forall₂ (SourceRemapped μ) c.sources c'.sources

/-- The identical substitution applied to an alias value; alias name kept. -/
def AliasRemapped (μ : List (String × String)) (p p' : String × String) : Prop :=
  p'.1 = p.1 ∧
  ((∃ v, alookup μ p.2 = some v ∧ p'.2 = v) ∨
   (alookup μ p.2 = none ∧ p'.2 = p.2))

/-- All non-alias source-mapping fields preserved, aliases pointwise
substituted. -/
def SourceMapRemapped (μ : List (String × String)) (sm sm' : SourceMap) : Prop :=
  sm'.customSQL = sm.customSQL ∧ sm'.dependencies = sm.dependencies ∧
  sm'.join = sm.join ∧ sm'.name = sm.name ∧ sm'.noLinkRefs = sm.noLinkRefs ∧
  List.Forall₂ (AliasRemapped μ) sm.aliases sm'.aliases

/-- Well-formed metadata per the data model: every column reference is a
real pair (both ids non-empty) and no default value is the empty string. -/
def WFMetadata (m : Metadata) : Prop :=
  ∀ c ∈ m.columns, c.defaultValue ≠ some "" ∧
    ∀ s ∈ c.sources, ∀ r ∈ s.columnReferences, r.nodeID ≠ "" ∧ r.columnID ≠ ""

theorem filterMap_eq_map_of_all {α β : Type} (f : α → Option β) (g : α → β)
    (l : List α) (h : ∀ x ∈ l, f x = some (g x)) : l.filterMap f = l.map g := by
  induction l with
  | nil => rfl
  | cons x xs ih =>
    rw [List.filterMap_cons, h x (List.mem_cons_self _ _), List.map_cons,
      ih (fun y hy => h y (List.mem_cons_of_mem _ hy))]

theorem forall₂_map_self {α β : Type} (R : α → β → Prop) (f : α → β)
    (l : List α) (h : ∀ x ∈ l, R x (f x)) : List.Forall₂ R l (l.map f) := by
  induction l with
  | nil => exact List.Forall₂.nil
  | cons x xs ih =>
    exact List.Forall₂.cons (h x (List.mem_cons_self _ _))
      (ih (fun y hy => h y (List.mem_cons_of_mem _ hy)))

theorem refRemapped_properRef (μ : List (String × String)) (r : ColumnReference)
    (_h1 : r.nodeID ≠ "") (_h2 : r.columnID ≠ "") :
    RefRemapped μ r { nodeID := lookupD μ r.nodeID, columnID := r.columnID } := by
  refine ⟨rfl, ?_⟩
  rcases hx : alookup μ r.nodeID with _ | v
  · exact Or.inr ⟨rfl, by simp [lookupD, hx]⟩
  · exact Or.inl ⟨v, rfl, by simp [lookupD, hx]⟩

/-- **C1** — Reference Remapper correctness: for well-formed metadata with
at least one column, `build_proper_metadata` succeeds; every column
reference whose node id is a key of the identifier mapping comes out
carrying the mapped id, every other reference keeps its original id, the
identical substitution is applied to every source-mapping alias value, and
all other fields (column names, data types, transform text, nullability,
defaults, descriptions, primary keys, configs, and the remaining
source-mapping and metadata fields) are unchanged. -/
theorem remap_correct (m : Metadata) (μ : List (String × String))
    (hne : m.columns ≠ []) (hwf : WFMetadata m) :
    ∃ out, build_proper_metadata m μ = some out ∧
      List.Forall₂ (ColumnRemapped μ) m.columns out.columns ∧
      List.Forall₂ (SourceMapRemapped μ) m.sourceMapping out.sourceMapping ∧
      out.cteString = m.cteString ∧
      out.appliedNodeTests = m.appliedNodeTests ∧
      out.enabledColumnTestIDs = m.enabledColumnTestIDs := by
  refine ⟨{ columns := m.columns.map (properCol μ)
            sourceMapping := m.sourceMapping.map (properSourceMap μ)
            cteString := m.cteString
            appliedNodeTests := m.appliedNodeTests
            enabledColumnTestIDs := m.enabledColumnTestIDs },
    by rw [build_proper_metadata, if_neg hne], ?_, ?_, rfl, rfl, rfl⟩
  · refine forall₂_map_self _ _ _ (fun c hc => ?_)
    obtain ⟨hdv, hsrc⟩ := hwf c hc
    refine ⟨rfl, rfl, rfl, rfl, rfl, ?_, rfl, rfl, ?_⟩
    · rcases hd : c.defaultValue with _ | s
      · simp [properCol, hd]
      · have hs : s ≠ "" := fun h => hdv (by rw [hd, h])
        simp [properCol, hd, hs]
    · refine forall₂_map_self _ _ _ (fun s hs => ?_)
      refine ⟨rfl, ?_⟩
      have hall : ∀ r ∈ s.columnReferences,
          properRef μ r = some { nodeID := lookupD μ r.nodeID, columnID := r.columnID } := by
        intro r hr
        obtain ⟨h1, h2⟩ := hsrc s hs r hr
        simp [properRef, h1, h2]
      have := filterMap_eq_map_of_all (properRef μ)
        (fun r => { nodeID := lookupD μ r.nodeID, columnID := r.columnID })
        s.columnReferences hall
      show List.Forall₂ (RefRemapped μ) s.columnReferences
        ((properSource μ s).columnReferences)
      rw [show (properSource μ s).columnReferences =
        s.columnReferences.filterMap (properRef μ) from rfl, this]
      refine forall₂_map_self _ _ _ (fun r hr => ?_)
      obtain ⟨h1, h2⟩ := hsrc s hs r hr
      exact refRemapped_properRef μ r h1 h2
  · refine forall₂_map_self _ _ _ (fun sm _ => ?_)
    refine ⟨rfl, rfl, rfl, rfl, rfl, ?_⟩
    refine forall₂_map_self _ _ _ (fun p _ => ?_)
    refine ⟨rfl, ?_⟩
    rcases hx : alookup μ p.2 with _ | v
    · exact Or.inr ⟨rfl, by simp [lookupD, hx]⟩
    · exact Or.inl ⟨v, rfl, by simp [lookupD, hx]⟩

/-- Example metadata for the remapper: one column with one source holding a
mapped and an unmapped reference, plus one alias entry. -/
def exMetadata : Metadata :=
  { columns :=
      [{ name := "C1"
         dataType := "VARCHAR"
         nullable := true
         description := ""
         columnID := some "7"
         defaultValue := none
         primaryKey := some true
         sources :=
           [{ transform := "UPPER(C1)"
              columnReferences :=
                [{ nodeID := "old-1", columnID := "11" },
                 { nodeID := "old-2", columnID := "12" }] }]
         config := none }]
    sourceMapping :=
      [{ aliases := [("src", "old-1")]
         customSQL := ""
         dependencies := ["DEP"]
         join := ""
         name := "default"
         noLinkRefs := [] }]
    cteString := none
    appliedNodeTests := none
    enabledColumnTestIDs := none }

/-- Witness for `remap_correct` at `exMetadata` with mapping
`old-1 ↦ new-1`. -/
theorem remap_correct_witness :
    ∃ out, build_proper_metadata exMetadata [("old-1", "new-1")] = some out ∧
      List.Forall₂ (ColumnRemapped [("old-1", "new-1")]) exMetadata.columns out.columns ∧
      List.Forall₂ (SourceMapRemapped [("old-1", "new-1")])
        exMetadata.sourceMapping out.sourceMapping ∧
      out.cteString = exMetadata.cteString ∧
      out.appliedNodeTests = exMetadata.appliedNodeTests ∧
      out.enabledColumnTestIDs = exMetadata.enabledColumnTestIDs :=
  remap_correct exMetadata [("old-1", "new-1")] (by decide)
    (by unfold WFMetadata; decide)

/-! ## Node Store fetch, Dependency Resolver and Migratability Classifier
(`universal_subgraph_migration.py`)

The remote platform is modelled as a fixed snapshot
`snapshot : String → Option SNode` (the workspace's node table at rest);
`requests.get` returning 200 with a body is `some node`, any non-200
status or transport exception is `none`. -/

/-- String helpers evaluated on the character list, so that concrete
instances reduce in the kernel: `c in s`, `len(s)` and `pat in s`. -/
def strHasChar (s : String) (c : Char) : Bool := s.data.contains c

def strLen (s : String) : Nat := s.data.length

def containsSub (s pat : String) : Bool := decide (List.IsInfix pat.data s.data)

/-- The id heuristic of `_extract_dependencies_from_node`:
`'-' in node_id and len(node_id) > 30`. -/
def isUuidLike (s : String) : Bool := strHasChar s '-' && decide (30 < strLen s)

/-- A node as seen by the subgraph-migration module: `name`, `type`, the
two config flags read by `_is_api_migratable_node`
(`config.get('materialized')`, `config.get('is_source', False)`), and the
lineage metadata. -/
structure SNode where
  name : String
  type : String
  cfgMaterialized : String
  cfgIsSource : Bool
  metadata : Metadata
  deriving DecidableEq

/-- Run-local fetch state: the `node_cache` dict keyed by
`f"{workspace_id}_{node_id}"`, and the `failed_node_downloads` records
(modelled by the failing node id). -/
structure FetchState where
  node_cache : List (String × SNode)
  failed_node_downloads : List String
  deriving DecidableEq

def cacheKey (workspace_id node_id : String) : String :=
  workspace_id ++ "_" ++ node_id

/-- `_get_node_details` (universal_subgraph_migration.py lines 311-352):
cache hit returns the cached node unchanged; otherwise a remote read, whose
success is cached and whose failure is recorded in
`failed_node_downloads` and yields `none`.  Failures are not cached. -/
def get_node_details (snapshot : String → Option SNode) (workspace_id : String)
    (st : FetchState) (node_id : String) : Option SNode × FetchState :=
  match alookup st.node_cache (cacheKey workspace_id node_id) with
  | some cached => (some cached, st)
  | none =>
    match snapshot node_id with
    | some node_info =>
      (some node_info,
       { st with node_cache :=
           st.node_cache ++ [(cacheKey workspace_id node_id, node_info)] })
    | none =>
      (none, { st with failed_node_downloads := st.failed_node_downloads ++ [node_id] })

/-- `_extract_dependencies_from_node` (lines 354-397): collect into a set
every column-reference node id and every source-mapping alias value that
looks like a UUID.  The Python set is modelled as an insertion-ordered
duplicate-free list. -/
def extract_dependencies_from_node (nd : Option SNode) : List String :=
  match nd with
  | none => []
  | some node =>
    let afterRefs :=
      node.metadata.columns.foldl (fun acc1 c =>
        c.sources.foldl (fun acc2 s =>
          s.columnReferences.foldl (fun acc3 r =>
            if isUuidLike r.nodeID then insertSeen acc3 r.nodeID else acc3)
            acc2) acc1) []
    node.metadata.sourceMapping.foldl (fun acc1 sm =>
      sm.aliases.foldl (fun acc2 p =>
        if isUuidLike p.2 then insertSeen acc2 p.2 else acc2) acc1) afterRefs

/-- Resolver state: `all_discovered_nodes` and `processed_nodes` (sets
modelled as insertion-ordered duplicate-free lists) plus the fetch state. -/
structure ResolveState where
  discovered : List String
  processed : List String
  fetch : FetchState
  deriving DecidableEq

/-- One discovery round's inner loop (lines 507-523), one iteration per
unprocessed id: fetch it, union its extracted dependencies into
`new_dependencies`, and mark it processed. -/
def process_round_aux (snapshot : String → Option SNode) (workspace_id : String) :
    List String → ResolveState → List String → ResolveState × List String
  | [], st, new_dependencies => (st, new_dependencies)
  | node_id :: rest, st, new_dependencies =>
    process_round_aux snapshot workspace_id rest
      { st with
          fetch := (get_node_details snapshot workspace_id st.fetch node_id).2
          processed := st.processed ++ [node_id] }
      ((extract_dependencies_from_node
          (get_node_details snapshot workspace_id st.fetch node_id).1).foldl
        insertSeen new_dependencies)

/-- The whole inner loop, with an initially empty `new_dependencies` set.
Returns the updated state and the round's `new_dependencies`. -/
def process_round (snapshot : String → Option SNode) (workspace_id : String)
    (st : ResolveState) (nodes_to_process : List String) :
    ResolveState × List String :=
  process_round_aux snapshot workspace_id nodes_to_process st []

/-- The `while current_depth < max_depth` loop of
`_resolve_all_dependencies` (lines 496-536).  Stops when no unprocessed id
remains, when a round extracts no dependencies at all, or when the depth
bound is exhausted. -/
def to_process (st : ResolveState) : List String :=
  st.discovered.filter (fun x => decide (x ∉ st.processed))

def resolve_loop (snapshot : String → Option SNode) (workspace_id : String) :
    Nat → ResolveState → ResolveState
  | 0, st => st
  | fuel + 1, st =>
    if (to_process st).isEmpty then st
    else
      if (process_round snapshot workspace_id st (to_process st)).2.isEmpty then
        (process_round snapshot workspace_id st (to_process st)).1
      else
        resolve_loop snapshot workspace_id fuel
          { (process_round snapshot workspace_id st (to_process st)).1 with
              discovered :=
                (process_round snapshot workspace_id st (to_process st)).2.foldl
                  insertSeen
                  (process_round snapshot workspace_id st (to_process st)).1.discovered }

/-- `_resolve_all_dependencies` (lines 485-554), discovery part: seeds are
deduplicated into the discovered set and the round loop runs to the depth
bound.  The fetch state is a parameter because `node_cache` lives on the
instance and survives from one discovery pass to the next. -/
def resolve_all_dependencies (snapshot : String → Option SNode)
    (workspace_id : String) (fetch0 : FetchState) (initial_nodes : List String)
    (max_depth : Nat) : ResolveState :=
  resolve_loop snapshot workspace_id max_depth
    { discovered := initial_nodes.foldl insertSeen []
      processed := []
      fetch := fetch0 }

/-! ### Resolver lemmas -/

theorem foldl_insertSeen_nodup (l acc : List String) (h : acc.Nodup) :
    (l.foldl insertSeen acc).Nodup := by
  obtain ⟨r, h1, _, _, h4, _⟩ := foldl_insertSeen_split l acc
  rw [h1]; exact h4 h

theorem mem_foldl_insertSeen (l acc : List String) (x : String) :
    x ∈ l.foldl insertSeen acc ↔ x ∈ acc ∨ x ∈ l := by
  obtain ⟨r, h1, _, _, _, h5⟩ := foldl_insertSeen_split l acc
  rw [h1]; exact h5 x

theorem cacheKey_inj (workspace_id a b : String) (h : cacheKey workspace_id a = cacheKey workspace_id b) :
    a = b := by
  have := congrArg String.data h
  rw [cacheKey, cacheKey, String.data_append, String.data_append] at this
  exact String.ext (List.append_cancel_left this)

/-- The cache never contradicts the snapshot: every cached entry for this
workspace is the node the snapshot holds for that id. -/
def Consistent (snapshot : String → Option SNode) (workspace_id : String)
    (st : FetchState) : Prop :=
  ∀ id node, alookup st.node_cache (cacheKey workspace_id id) = some node →
    snapshot id = some node

theorem consistent_empty (snapshot : String → Option SNode) (workspace_id : String)
    (fails : List String) :
    Consistent snapshot workspace_id ⟨[], fails⟩ := by
  intro id node h
  simp [alookup] at h

theorem get_node_details_result (snapshot : String → Option SNode)
    (workspace_id : String) (st : FetchState) (node_id : String)
    (h : Consistent snapshot workspace_id st) :
    (get_node_details snapshot workspace_id st node_id).1 = snapshot node_id := by
  unfold get_node_details
  rcases hc : alookup st.node_cache (cacheKey workspace_id node_id) with _ | cached
  · rcases hs : snapshot node_id with _ | n <;> simp [hs]
  · simpa using (h node_id cached hc).symm

theorem get_node_details_consistent (snapshot : String → Option SNode)
    (workspace_id : String) (st : FetchState) (node_id : String)
    (h : Consistent snapshot workspace_id st) :
    Consistent snapshot workspace_id (get_node_details snapshot workspace_id st node_id).2 := by
  unfold get_node_details
  rcases hc : alookup st.node_cache (cacheKey workspace_id node_id) with _ | cached
  · rcases hs : snapshot node_id with _ | n
    · simpa using h
    · intro id node hx
      simp only at hx
      rw [alookup_append] at hx
      rcases ho : alookup st.node_cache (cacheKey workspace_id id) with _ | old
      · rw [ho] at hx
        simp [Option.or, alookup] at hx
        obtain ⟨hk, hv⟩ := hx
        have : node_id = id := cacheKey_inj workspace_id node_id id (by rw [hk])
        rw [← this, hs, hv]
      · rw [ho] at hx
        simp [Option.or] at hx
        exact hx ▸ h id old ho
  · simpa using h

/-- The round's extracted-dependency set, computed directly from the
snapshot (what `process_round` produces whenever its cache is consistent). -/
def pure_round_deps (snapshot : String → Option SNode)
    (nodes_to_process : List String) : List String :=
  nodes_to_process.foldl
    (fun acc n => (extract_dependencies_from_node (snapshot n)).foldl insertSeen acc)
    []

theorem process_round_aux_spec (snapshot : String → Option SNode)
    (workspace_id : String) (l : List String) :
    ∀ (st : ResolveState) (acc : List String),
      Consistent snapshot workspace_id st.fetch →
      (process_round_aux snapshot workspace_id l st acc).1.discovered = st.discovered ∧
      (process_round_aux snapshot workspace_id l st acc).1.processed = st.processed ++ l ∧
      Consistent snapshot workspace_id
        (process_round_aux snapshot workspace_id l st acc).1.fetch ∧
      (process_round_aux snapshot workspace_id l st acc).2 =
        l.foldl
          (fun a n => (extract_dependencies_from_node (snapshot n)).foldl insertSeen a)
          acc := by
  induction l with
  | nil => intro st acc h; exact ⟨rfl, by simp [process_round_aux], h, rfl⟩
  | cons x xs ih =>
    intro st acc h
    have hres := get_node_details_result snapshot workspace_id st.fetch x h
    have hcons := get_node_details_consistent snapshot workspace_id st.fetch x h
    have ihx := ih
      { st with
          fetch := (get_node_details snapshot workspace_id st.fetch x).2
          processed := st.processed ++ [x] }
      ((extract_dependencies_from_node
          (get_node_details snapshot workspace_id st.fetch x).1).foldl insertSeen acc)
      hcons
    rw [process_round_aux]
    refine ⟨ihx.1, ?_, ihx.2.2.1, ?_⟩
    · rw [ihx.2.1]; simp
    · rw [ihx.2.2.2, List.foldl_cons, hres]

theorem process_round_parts (snapshot : String → Option SNode)
    (workspace_id : String) (st : ResolveState) (l : List String)
    (h : Consistent snapshot workspace_id st.fetch) :
    (process_round snapshot workspace_id st l).1.discovered = st.discovered ∧
    (process_round snapshot workspace_id st l).1.processed = st.processed ++ l ∧
    Consistent snapshot workspace_id (process_round snapshot workspace_id st l).1.fetch ∧
    (process_round snapshot workspace_id st l).2 = pure_round_deps snapshot l := by
  exact process_round_aux_spec snapshot workspace_id l st [] h

/-- The discovery loop with the fetch cache abstracted away: the discovered
and processed sets it computes whenever the cache is consistent with the
snapshot. -/
def pure_to_process (discovered processed : List String) : List String :=
  discovered.filter (fun x => decide (x ∉ processed))

def pure_resolve_loop (snapshot : String → Option SNode) :
    Nat → List String → List String → List String × List String
  | 0, discovered, processed => (discovered, processed)
  | fuel + 1, discovered, processed =>
    if (pure_to_process discovered processed).isEmpty then (discovered, processed)
    else
      if (pure_round_deps snapshot (pure_to_process discovered processed)).isEmpty then
        (discovered, processed ++ pure_to_process discovered processed)
      else
        pure_resolve_loop snapshot fuel
          ((pure_round_deps snapshot (pure_to_process discovered processed)).foldl
            insertSeen discovered)
          (processed ++ pure_to_process discovered processed)

theorem to_process_eq (st : ResolveState) :
    to_process st = pure_to_process st.discovered st.processed := rfl

theorem resolve_loop_pure (snapshot : String → Option SNode) (workspace_id : String) :
    ∀ (fuel : Nat) (st : ResolveState),
      Consistent snapshot workspace_id st.fetch →
      (resolve_loop snapshot workspace_id fuel st).discovered =
        (pure_resolve_loop snapshot fuel st.discovered st.processed).1 ∧
      (resolve_loop snapshot workspace_id fuel st).processed =
        (pure_resolve_loop snapshot fuel st.discovered st.processed).2 ∧
      Consistent snapshot workspace_id (resolve_loop snapshot workspace_id fuel st).fetch := by
  intro fuel
  induction fuel with
  | zero => intro st h; exact ⟨rfl, rfl, h⟩
  | succ n ih =>
    intro st h
    obtain ⟨hd, hp, hc, hnd⟩ := process_round_parts snapshot workspace_id st
      (to_process st) h
    rw [resolve_loop, pure_resolve_loop, ← to_process_eq, hnd]
    by_cases he : (to_process st).isEmpty = true
    · rw [if_pos he, if_pos he]
      exact ⟨rfl, rfl, h⟩
    · rw [if_neg he, if_neg he]
      by_cases hnde : (pure_round_deps snapshot (to_process st)).isEmpty = true
      · rw [if_pos hnde, if_pos hnde]
        exact ⟨hd, by rw [hp], hc⟩
      · rw [if_neg hnde, if_neg hnde]
        have := ih
          { (process_round snapshot workspace_id st (to_process st)).1 with
            discovered :=
              (pure_round_deps snapshot (to_process st)).foldl insertSeen
                (process_round snapshot workspace_id st (to_process st)).1.discovered }
          hc
        rw [hd, hp] at this
        dsimp only at this ⊢
        rw [hd]
        exact this

theorem mem_pure_round_deps (snapshot : String → Option SNode)
    (tp : List String) (x : String) :
    x ∈ pure_round_deps snapshot tp ↔
      ∃ n ∈ tp, x ∈ extract_dependencies_from_node (snapshot n) := by
  have aux : ∀ (l : List String) (acc : List String),
      x ∈ l.foldl
        (fun a n => (extract_dependencies_from_node (snapshot n)).foldl insertSeen a)
        acc ↔
      x ∈ acc ∨ ∃ n ∈ l, x ∈ extract_dependencies_from_node (snapshot n) := by
    intro l
    induction l with
    | nil => intro acc; simp
    | cons y ys ih =>
      intro acc
      rw [List.foldl_cons, ih, mem_foldl_insertSeen]
      constructor
      · rintro ((h | h) | ⟨n, hn, hx⟩)
        · exact Or.inl h
        · exact Or.inr ⟨y, List.mem_cons_self _ _, h⟩
        · exact Or.inr ⟨n, List.mem_cons_of_mem _ hn, hx⟩
      · rintro (h | ⟨n, hn, hx⟩)
        · exact Or.inl (Or.inl h)
        · rcases List.mem_cons.1 hn with rfl | hn'
          · exact Or.inl (Or.inr hx)
          · exact Or.inr ⟨n, hn', hx⟩
  simpa using aux tp []

theorem pure_resolve_loop_mono (snapshot : String → Option SNode) :
    ∀ (fuel : Nat) (d p : List String) (x : String),
      x ∈ d → x ∈ (pure_resolve_loop snapshot fuel d p).1 := by
  intro fuel
  induction fuel with
  | zero => intro d p x hx; exact hx
  | succ n ih =>
    intro d p x hx
    rw [pure_resolve_loop]
    by_cases he : (pure_to_process d p).isEmpty = true
    · rw [if_pos he]; exact hx
    · rw [if_neg he]
      by_cases hnd : (pure_round_deps snapshot (pure_to_process d p)).isEmpty = true
      · rw [if_pos hnd]; exact hx
      · rw [if_neg hnd]
        exact ih _ _ x ((mem_foldl_insertSeen _ _ x).2 (Or.inl hx))

theorem mem_pure_to_process (d p : List String) (x : String) :
    x ∈ pure_to_process d p ↔ x ∈ d ∧ x ∉ p := by
  simp [pure_to_process]

theorem pure_resolve_loop_nodup (snapshot : String → Option SNode) :
    ∀ (fuel : Nat) (d p : List String), d.Nodup → p.Nodup →
      (pure_resolve_loop snapshot fuel d p).1.Nodup ∧
      (pure_resolve_loop snapshot fuel d p).2.Nodup := by
  intro fuel
  induction fuel with
  | zero => intro d p hd hp; exact ⟨hd, hp⟩
  | succ n ih =>
    intro d p hd hp
    have hptp : (p ++ pure_to_process d p).Nodup := by
      rw [List.nodup_append]
      refine ⟨hp, hd.filter _, ?_⟩
      intro a ha hatp
      exact ((mem_pure_to_process d p a).1 hatp).2 ha
    rw [pure_resolve_loop]
    by_cases he : (pure_to_process d p).isEmpty = true
    · rw [if_pos he]; exact ⟨hd, hp⟩
    · rw [if_neg he]
      by_cases hnd : (pure_round_deps snapshot (pure_to_process d p)).isEmpty = true
      · rw [if_pos hnd]
        exact ⟨hd, hptp⟩
      · rw [if_neg hnd]
        exact ih _ _ (foldl_insertSeen_nodup _ _ hd) hptp

/-! ### C9, C8, C4 claim theorems -/

/-- **C9** — Node Store fetch contract: a (workspace, node id) pair already
in the cache is answered from the cache with no state change; on a cache
miss with no snapshot entry (non-2xx or transport failure) the result is
the NotFound outcome (`none`) and a failure record for that id is appended;
and whenever the cache is consistent with the snapshot, the returned value
is exactly the snapshot's, consistency is preserved, and a missing node
always gets a recorded failure reason.  The function is total: no exception
escapes this boundary. -/
theorem node_store_fetch_contract (snapshot : String → Option SNode)
    (workspace_id : String) (st : FetchState) (node_id : String) :
    (∀ node, alookup st.node_cache (cacheKey workspace_id node_id) = some node →
        get_node_details snapshot workspace_id st node_id = (some node, st)) ∧
    (alookup st.node_cache (cacheKey workspace_id node_id) = none →
      snapshot node_id = none →
        get_node_details snapshot workspace_id st node_id =
          (none, { st with failed_node_downloads := st.failed_node_downloads ++ [node_id] })) ∧
    (Consistent snapshot workspace_id st →
        (get_node_details snapshot workspace_id st node_id).1 = snapshot node_id ∧
        Consistent snapshot workspace_id (get_node_details snapshot workspace_id st node_id).2 ∧
        (snapshot node_id = none →
          (get_node_details snapshot workspace_id st node_id).2.failed_node_downloads =
            st.failed_node_downloads ++ [node_id])) := by
  refine ⟨?_, ?_, ?_⟩
  · intro node h
    unfold get_node_details
    rw [h]
  · intro hc hs
    unfold get_node_details
    rw [hc, hs]
  · intro h
    refine ⟨get_node_details_result snapshot workspace_id st node_id h,
      get_node_details_consistent snapshot workspace_id st node_id h, ?_⟩
    intro hs
    unfold get_node_details
    rcases hc : alookup st.node_cache (cacheKey workspace_id node_id) with _ | cached
    · rw [hs]
    · exact absurd ((h node_id cached hc).symm.trans hs) (by simp)

/-- Witness for `node_store_fetch_contract`: an empty cache, a snapshot
with no nodes, and a fetch of `node-1`. -/
theorem node_store_fetch_contract_witness :
    (get_node_details (fun _ => none) "ws" ⟨[], []⟩ "node-1").1 = none ∧
    (get_node_details (fun _ => none) "ws" ⟨[], []⟩ "node-1").2.failed_node_downloads =
      ["node-1"] := by
  have h := (node_store_fetch_contract (fun _ => none) "ws" ⟨[], []⟩ "node-1").2.2
    (consistent_empty _ _ _)
  exact ⟨h.1, h.2.2 rfl⟩

/-- **C8** — Idempotent discovery: for a fixed workspace snapshot and seed
set, running the Dependency Resolver a second time — with the node cache
the first run left behind — yields exactly the same discovered-id set as
the first run from an empty cache. -/
theorem discovery_idempotent (snapshot : String → Option SNode)
    (workspace_id : String) (seeds : List String) (max_depth : Nat) :
    (resolve_all_dependencies snapshot workspace_id
        (resolve_all_dependencies snapshot workspace_id ⟨[], []⟩ seeds max_depth).fetch
        seeds max_depth).discovered =
      (resolve_all_dependencies snapshot workspace_id ⟨[], []⟩ seeds max_depth).discovered := by
  unfold resolve_all_dependencies
  have h1 := resolve_loop_pure snapshot workspace_id max_depth
    { discovered := seeds.foldl insertSeen []
      processed := []
      fetch := ⟨[], []⟩ } (consistent_empty _ _ _)
  have h2 := resolve_loop_pure snapshot workspace_id max_depth
    { discovered := seeds.foldl insertSeen []
      processed := []
      fetch := (resolve_loop snapshot workspace_id max_depth
        { discovered := seeds.foldl insertSeen []
          processed := []
          fetch := ⟨[], []⟩ }).fetch } h1.2.2
  rw [h2.1, h1.1]

/-- **C4** — Termination of discovery on cycles: with a reference cycle
(`A` references `B`, `B` references `A`) and any seed set containing `A`,
the resolver (a loop bounded by the depth fuel, hence terminating by
construction) returns a duplicate-free discovered set containing every
seed, in which `A` and `B` each appear exactly once; and no id is ever
processed twice (the processed list is duplicate-free as well). -/
theorem discovery_terminates_on_cycles (snapshot : String → Option SNode)
    (workspace_id A B : String) (seeds : List String) (max_depth : Nat)
    (hAB : B ∈ extract_dependencies_from_node (snapshot A))
    (_hBA : A ∈ extract_dependencies_from_node (snapshot B))
    (hA : A ∈ seeds) (hfuel : 1 ≤ max_depth) :
    (resolve_all_dependencies snapshot workspace_id ⟨[], []⟩ seeds max_depth).discovered.Nodup ∧
    (resolve_all_dependencies snapshot workspace_id ⟨[], []⟩ seeds max_depth).processed.Nodup ∧
    (∀ s ∈ seeds,
      s ∈ (resolve_all_dependencies snapshot workspace_id ⟨[], []⟩ seeds max_depth).discovered) ∧
    (resolve_all_dependencies snapshot workspace_id ⟨[], []⟩ seeds max_depth).discovered.count A = 1 ∧
    (resolve_all_dependencies snapshot workspace_id ⟨[], []⟩ seeds max_depth).discovered.count B = 1 := by
  have hbridge := resolve_loop_pure snapshot workspace_id max_depth
    { discovered := seeds.foldl insertSeen []
      processed := []
      fetch := ⟨[], []⟩ } (consistent_empty _ _ _)
  have hd0 : ∀ s ∈ seeds, s ∈ seeds.foldl insertSeen [] := by
    intro s hs
    exact (mem_foldl_insertSeen _ _ s).2 (Or.inr hs)
  have hnodup := pure_resolve_loop_nodup snapshot max_depth
    (seeds.foldl insertSeen []) [] (foldl_insertSeen_nodup _ _ (by simp)) (by simp)
  have hmemo : ∀ s ∈ seeds,
      s ∈ (pure_resolve_loop snapshot max_depth (seeds.foldl insertSeen []) []).1 :=
    fun s hs => pure_resolve_loop_mono snapshot max_depth _ _ s (hd0 s hs)
  have hBmem : B ∈ (pure_resolve_loop snapshot max_depth (seeds.foldl insertSeen []) []).1 := by
    obtain ⟨k, rfl⟩ : ∃ k, max_depth = k + 1 := by
      rcases max_depth with _ | k
      · exact absurd hfuel (by simp)
      · exact ⟨k, rfl⟩
    rw [pure_resolve_loop]
    have htp : pure_to_process (seeds.foldl insertSeen []) [] = seeds.foldl insertSeen [] := by
      rw [pure_to_process, List.filter_eq_self]
      intro a _
      simp
    have hAmem : A ∈ pure_to_process (seeds.foldl insertSeen []) [] := by
      rw [htp]; exact hd0 A hA
    have he : (pure_to_process (seeds.foldl insertSeen []) []).isEmpty = false := by
      rcases h : pure_to_process (seeds.foldl insertSeen []) [] with _ | ⟨y, ys⟩
      · rw [h] at hAmem; cases hAmem
      · rfl
    have hBnd : B ∈ pure_round_deps snapshot (pure_to_process (seeds.foldl insertSeen []) []) :=
      (mem_pure_round_deps snapshot _ B).2 ⟨A, hAmem, hAB⟩
    have hnde : (pure_round_deps snapshot
        (pure_to_process (seeds.foldl insertSeen []) [])).isEmpty = false := by
      rcases h : pure_round_deps snapshot (pure_to_process (seeds.foldl insertSeen []) []) with _ | ⟨y, ys⟩
      · rw [h] at hBnd; cases hBnd
      · rfl
    rw [if_neg (by simp [he]), if_neg (by simp [hnde])]
    exact pure_resolve_loop_mono snapshot k _ _ B
      ((mem_foldl_insertSeen _ _ B).2 (Or.inr hBnd))
  refine ⟨?_, ?_, ?_, ?_, ?_⟩
  · rw [resolve_all_dependencies, hbridge.1]; exact hnodup.1
  · rw [resolve_all_dependencies, hbridge.2.1]; exact hnodup.2
  · intro s hs
    rw [resolve_all_dependencies, hbridge.1]; exact hmemo s hs
  · rw [resolve_all_dependencies, hbridge.1]
    exact List.count_eq_one_of_mem hnodup.1 (hmemo A hA)
  · rw [resolve_all_dependencies, hbridge.1]
    exact List.count_eq_one_of_mem hnodup.1 hBmem

/-- A two-node reference cycle: each node's single column carries one
column reference to the other node's id. -/
def cycNode (other : String) : SNode :=
  { name := "CYC"
    type := "Satellite"
    cfgMaterialized := ""
    cfgIsSource := false
    metadata :=
      { columns :=
          [{ name := "K"
             dataType := "VARCHAR"
             nullable := true
             description := ""
             columnID := none
             defaultValue := none
             primaryKey := none
             sources :=
               [{ transform := "K"
                  columnReferences := [{ nodeID := other, columnID := "1" }] }]
             config := none }]
        sourceMapping := []
        cteString := none
        appliedNodeTests := none
        enabledColumnTestIDs := none } }

def uuidA : String := "aaaaaaaa-0000-0000-0000-000000000001"

def uuidB : String := "bbbbbbbb-0000-0000-0000-000000000002"

def cycSnapshot : String → Option SNode := fun id =>
  if id = uuidA then some (cycNode uuidB)
  else if id = uuidB then some (cycNode uuidA) else none

/-- Witness for `discovery_terminates_on_cycles`: the concrete two-node
cycle `uuidA ↔ uuidB`, seeded with `uuidA`, at the default depth bound. -/
theorem discovery_terminates_on_cycles_witness :
    (resolve_all_dependencies cycSnapshot "ws" ⟨[], []⟩ [uuidA] 10).discovered.Nodup ∧
    (resolve_all_dependencies cycSnapshot "ws" ⟨[], []⟩ [uuidA] 10).processed.Nodup ∧
    (∀ s ∈ [uuidA],
      s ∈ (resolve_all_dependencies cycSnapshot "ws" ⟨[], []⟩ [uuidA] 10).discovered) ∧
    (resolve_all_dependencies cycSnapshot "ws" ⟨[], []⟩ [uuidA] 10).discovered.count uuidA = 1 ∧
    (resolve_all_dependencies cycSnapshot "ws" ⟨[], []⟩ [uuidA] 10).discovered.count uuidB = 1 :=
  discovery_terminates_on_cycles cycSnapshot "ws" uuidA uuidB [uuidA] 10
    (by decide) (by decide) (by decide) (by decide)

/-! ## Migratability Classifier (`universal_subgraph_migration.py`) -/

/-- ASCII `str.lower()`, evaluated on the character list so concrete
instances reduce in the kernel. -/
def lowerChar (c : Char) : Char :=
  if 'A' ≤ c ∧ c ≤ 'Z' then Char.ofNat (c.toNat + 32) else c

def asciiLower (s : String) : String := ⟨s.data.map lowerChar⟩

/-- The disallowed-type set of `_is_api_migratable_node` (lines 408-416). -/
def non_migratable_types : List String :=
  ["source", "source_table", "source_mapping", "stage", "stage_table", "staging", "raw"]

def stage_patterns : List String := ["stage_", "stg_", "_stage", "_stg", "staging_"]

/-- `_is_api_migratable_node` (universal_subgraph_migration.py lines
399-438): type not in the disallowed set, name-pattern check corroborated
by the type string, and no explicit source-materialization mark. -/
def is_api_migratable_node (node_data : Option SNode) : Bool :=
  match node_data with
  | none => false
  | some node =>
    if asciiLower node.type ∈ non_migratable_types then false
    else if (stage_patterns.any fun p => containsSub (asciiLower node.name) p) &&
        (containsSub (asciiLower node.type) "stage" ||
         containsSub (asciiLower node.type) "stg") then false
    else if node.cfgMaterialized = "source" || node.cfgIsSource then false
    else true

/-- The manual-required guard of `_categorize_dependencies` (line 467):
`node_type in ['source', 'stage'] and any(word in node_type for word in
['raw', 'src_'])`. -/
def categorize_manual_condition (node_type : String) : Bool :=
  (node_type = "source" || node_type = "stage") &&
  (containsSub node_type "raw" || containsSub node_type "src_")

/-- The skip guard of `_categorize_dependencies` (line 451):
`'.' in node_id or not '-' in node_id or len(node_id) < 30`. -/
def categorize_skip_condition (node_id : String) : Bool :=
  strHasChar node_id '.' || !(strHasChar node_id '-') || decide (strLen node_id < 30)

/-- `_categorize_dependencies` (lines 440-483): partition the discovered
ids into `api_migratable`, `manual_required` and `failed_analysis`,
threading the fetch state.  Output triple is
(api_migratable, manual_required, failed_analysis). -/
def categorize_dependencies (snapshot : String → Option SNode) (workspace_id : String) :
    List String → FetchState →
    (List String × List String × List String) × FetchState
  | [], st => (([], [], []), st)
  | node_id :: rest, st =>
    if categorize_skip_condition node_id then
      categorize_dependencies snapshot workspace_id rest st
    else
      match get_node_details snapshot workspace_id st node_id with
      | (none, st') =>
        match categorize_dependencies snapshot workspace_id rest st' with
        | ((api, manual, failed), st'') => ((api, manual, node_id :: failed), st'')
      | (some node_data, st') =>
        if categorize_manual_condition (asciiLower node_data.type) then
          match categorize_dependencies snapshot workspace_id rest st' with
          | ((api, manual, failed), st'') => ((api, node_id :: manual, failed), st'')
        else
          match categorize_dependencies snapshot workspace_id rest st' with
          | ((api, manual, failed), st'') => ((node_id :: api, manual, failed), st'')

/-! ### C3: the disallowed-type rule against the code -/

/-- A discovered node of disallowed type `Source`. -/
def srcNode : SNode :=
  { name := "RAW_CUSTOMER"
    type := "Source"
    cfgMaterialized := ""
    cfgIsSource := false
    metadata :=
      { columns := []
        sourceMapping := []
        cteString := none
        appliedNodeTests := none
        enabledColumnTestIDs := none } }

def uuidS : String := "cccccccc-0000-0000-0000-000000000003"

def srcSnapshot : String → Option SNode := fun id =>
  if id = uuidS then some srcNode else none

/-- **C3** — the disallowed-type rule fails on the live classifier: a
fetchable node of type `Source` is placed in `api_migratable` and the
manual-required partition stays empty, because the guard on line 467 of
`universal_subgraph_migration.py` is unsatisfiable (its first conjunct
pins the lowered type to exactly `source` or `stage`, neither of which
contains `raw` or `src_`).  The same file's `_is_api_migratable_node` —
which is never called — classifies the very same node as not
API-migratable, matching the spec's rule. -/
theorem classifier_disallowed_type_divergence :
    (categorize_dependencies srcSnapshot "ws" [uuidS] ⟨[], []⟩).1 = ([uuidS], [], []) ∧
    is_api_migratable_node (some srcNode) = false ∧
    (∀ t ∈ (["source", "stage"] : List String), categorize_manual_condition t = false) := by
  refine ⟨by decide, by decide, by decide⟩

/-! ## Creation Scheduler (`universal_node_creator.py`)

`create_node_via_api` is driven by a creation oracle giving, per node id,
the remote platform's observable behaviour for that node's creation:

* `created id'`  — POST 2xx with an id, configuration PUT (or the hash-key
  attempt) succeeds: mapping entry, created record, truthy return;
* `postFailed`   — POST non-2xx, or an exception before the id is read:
  error record, falsy return;
* `noId`         — POST 2xx but no id in the body: falsy return, nothing
  recorded;
* `configFailed id'` — POST 2xx, cleaned PUT non-2xx: mapping entry *and*
  error record *and* created record, truthy return;
* `exnAfterCreate id'` — exception after the mapping entry was written:
  mapping entry and error record, falsy return. -/

inductive CreateOutcome where
  | created (new_id : String)
  | postFailed
  | noId
  | configFailed (new_id : String)
  | exnAfterCreate (new_id : String)
  deriving DecidableEq

/-- Run state of the creator: `node_id_mapping`, `creation_errors` and
`created_nodes` (each error/created record modelled by its original node
id).  `attempt_log` is specification instrumentation, not Python state: it
records each `create_node_via_api` call as (node id, predecessor ids
passed). -/
structure CreatorState where
  node_id_mapping : List (String × String)
  creation_errors : List String
  created_nodes : List String
  attempt_log : List (String × List String)
  deriving DecidableEq

/-- `create_node_via_api` (universal_node_creator.py lines 437-605),
non-dry-run path, observable effects per oracle outcome.  The returned
`Bool` is the truthiness of the Python return value. -/
def create_node_via_api (oracle : String → CreateOutcome) (st : CreatorState)
    (node_id : String) (predecessor_ids : List String) : Bool × CreatorState :=
  match oracle node_id with
  | .created new_id =>
    (true,
     { node_id_mapping := st.node_id_mapping ++ [(node_id, new_id)]
       creation_errors := st.creation_errors
       created_nodes := st.created_nodes ++ [node_id]
       attempt_log := st.attempt_log ++ [(node_id, predecessor_ids)] })
  | .postFailed =>
    (false,
     { node_id_mapping := st.node_id_mapping
       creation_errors := st.creation_errors ++ [node_id]
       created_nodes := st.created_nodes
       attempt_log := st.attempt_log ++ [(node_id, predecessor_ids)] })
  | .noId =>
    (false,
     { node_id_mapping := st.node_id_mapping
       creation_errors := st.creation_errors
       created_nodes := st.created_nodes
       attempt_log := st.attempt_log ++ [(node_id, predecessor_ids)] })
  | .configFailed new_id =>
    (true,
     { node_id_mapping := st.node_id_mapping ++ [(node_id, new_id)]
       creation_errors := st.creation_errors ++ [node_id]
       created_nodes := st.created_nodes ++ [node_id]
       attempt_log := st.attempt_log ++ [(node_id, predecessor_ids)] })
  | .exnAfterCreate new_id =>
    (false,
     { node_id_mapping := st.node_id_mapping ++ [(node_id, new_id)]
       creation_errors := st.creation_errors ++ [node_id]
       created_nodes := st.created_nodes
       attempt_log := st.attempt_log ++ [(node_id, predecessor_ids)] })

/-- `dependencies.get(node_id, [])`. -/
def depsOf (dependencies : List (String × List String)) (n : String) : List String :=
  (alookup dependencies n).getD []

/-- `[dep for dep in node_deps if dep not in self.node_id_mapping]`
(line 629). -/
def unsatisfied_deps (dependencies : List (String × List String))
    (μ : List (String × String)) (n : String) : List String :=
  (depsOf dependencies n).filter (fun d => !(amem μ d))

/-- The ready set of a round (lines 626-631). -/
def round_ready (remaining : List String) (dependencies : List (String × List String))
    (μ : List (String × String)) : List String :=
  remaining.filter (fun n => (unsatisfied_deps dependencies μ n).isEmpty)

/-- `min(...)` over the unsatisfied-dependency counts (lines 635-636);
`0` stands in for the empty case the Python `min` would reject. -/
def min_unsat (remaining : List String) (dependencies : List (String × List String))
    (μ : List (String × String)) : Nat :=
  ((remaining.map fun n => (unsatisfied_deps dependencies μ n).length).min?).getD 0

/-- The forced-progress selection (lines 637-638): the unprocessed nodes
attaining the minimum number of unsatisfied dependencies. -/
def round_forced (remaining : List String) (dependencies : List (String × List String))
    (μ : List (String × String)) : List String :=
  remaining.filter
    (fun n => decide ((unsatisfied_deps dependencies μ n).length =
      min_unsat remaining dependencies μ))

/-- The nodes a round creates: the ready ones, or — when none is ready —
the forced minimal-unsatisfied ones (lines 633-639). -/
def round_selection (remaining : List String) (dependencies : List (String × List String))
    (μ : List (String × String)) : List String :=
  if (round_ready remaining dependencies μ).isEmpty then
    round_forced remaining dependencies μ
  else round_ready remaining dependencies μ

/-- The per-round creation loop (lines 643-659), one iteration per selected
node: predecessors are the already-mapped new ids of the node's satisfied
dependencies, read from the mapping as it stands at that node's turn;
`succ` counts truthy creation results. -/
def create_ready_aux (oracle : String → CreateOutcome)
    (dependencies : List (String × List String)) :
    List String → CreatorState → Nat → CreatorState × Nat
  | [], st, succ => (st, succ)
  | n :: rest, st, succ =>
    create_ready_aux oracle dependencies rest
      (create_node_via_api oracle st n
        ((depsOf dependencies n).filterMap (alookup st.node_id_mapping))).2
      (succ +
        if (create_node_via_api oracle st n
          ((depsOf dependencies n).filterMap (alookup st.node_id_mapping))).1
        then 1 else 0)

/-- One creation round (lines 621-661): select, create each selected node,
and remove the selected nodes from the remaining set.  Returns the new
remaining set, the new state and the round's success count. -/
def sched_round (oracle : String → CreateOutcome)
    (dependencies : List (String × List String)) (remaining : List String)
    (st : CreatorState) : List String × CreatorState × Nat :=
  (remaining.filter
     (fun x => decide (x ∉ round_selection remaining dependencies st.node_id_mapping)),
   create_ready_aux oracle dependencies
     (round_selection remaining dependencies st.node_id_mapping) st 0)

/-- The `while remaining_nodes and creation_rounds < max_rounds` loop
(lines 621-665), including the `round_success == 0 and remaining_nodes`
break. -/
def sched_loop (oracle : String → CreateOutcome)
    (dependencies : List (String × List String)) :
    Nat → List String → CreatorState → List String × CreatorState
  | 0, remaining, st => (remaining, st)
  | fuel + 1, remaining, st =>
    if remaining.isEmpty then (remaining, st)
    else
      if (sched_round oracle dependencies remaining st).2.2 = 0 ∧
          (sched_round oracle dependencies remaining st).1 ≠ [] then
        ((sched_round oracle dependencies remaining st).1,
         (sched_round oracle dependencies remaining st).2.1)
      else
        sched_loop oracle dependencies fuel
          (sched_round oracle dependencies remaining st).1
          (sched_round oracle dependencies remaining st).2.1

/-- `create_nodes_in_dependency_order` (lines 607-677):
`max_rounds = len(all_nodes) + 10`, starting from the empty run state. -/
def create_nodes_in_dependency_order (oracle : String → CreateOutcome)
    (all_node_ids : List String) (dependencies : List (String × List String)) :
    List String × CreatorState :=
  sched_loop oracle dependencies (all_node_ids.length + 10) all_node_ids
    ⟨[], [], [], []⟩

/-- `analyze_dependencies`'s per-node predecessor set (universal_node_creator.py
lines 306-320): every column-reference node id that is truthy and not the
node's own id, collected as a set. -/
def node_predecessors (node_id : String) (md : Metadata) : List String :=
  md.columns.foldl (fun acc1 c =>
    c.sources.foldl (fun acc2 s =>
      s.columnReferences.foldl (fun acc3 r =>
        if r.nodeID ≠ "" ∧ r.nodeID ≠ node_id then insertSeen acc3 r.nodeID else acc3)
        acc2) acc1) []

/-- `analyze_dependencies` (lines 299-328): each node (modelled by its id
and its metadata) maps to its predecessor set restricted to ids that are
keys of `all_nodes`. -/
def analyze_dependencies (all_nodes : List (String × Metadata)) :
    List (String × List String) :=
  all_nodes.map (fun p =>
    (p.1, (node_predecessors p.1 p.2).filter (fun pid => amem all_nodes pid)))

/-! ### Scheduler lemmas -/

/-- The ids attempted so far, in attempt order. -/
def attempted_ids (st : CreatorState) : List String := st.attempt_log.map Prod.fst

theorem amem_append_singleton {α : Type} (m : List (String × α)) (k : String) (v : α) :
    amem (m ++ [(k, v)]) k = true := by
  rw [amem, alookup_append]
  rcases h : alookup m k with _ | w <;> simp [h, Option.or, alookup]

theorem amem_append_left {α : Type} (m ext : List (String × α)) (k : String)
    (h : amem m k = true) : amem (m ++ ext) k = true := by
  rw [amem, alookup_append]
  rw [amem] at h
  rcases hh : alookup m k with _ | w
  · rw [hh] at h; cases h
  · simp [Option.or]

theorem alookup_append_of_isSome {α : Type} (m ext : List (String × α)) (k : String)
    (h : (alookup m k).isSome) : alookup (m ++ ext) k = alookup m k := by
  rw [alookup_append]
  exact Option.or_of_isSome h

theorem create_node_effects (oracle : String → CreateOutcome) (st : CreatorState)
    (node_id : String) (preds : List String) :
    ∃ (mext : List (String × String)) (eext cext : List String),
      (create_node_via_api oracle st node_id preds).2.node_id_mapping =
        st.node_id_mapping ++ mext ∧
      (create_node_via_api oracle st node_id preds).2.creation_errors =
        st.creation_errors ++ eext ∧
      (create_node_via_api oracle st node_id preds).2.created_nodes =
        st.created_nodes ++ cext ∧
      (create_node_via_api oracle st node_id preds).2.attempt_log =
        st.attempt_log ++ [(node_id, preds)] ∧
      (amem (create_node_via_api oracle st node_id preds).2.node_id_mapping node_id = true ∨
       node_id ∈ (create_node_via_api oracle st node_id preds).2.creation_errors ∨
       oracle node_id = .noId) := by
  rcases h : oracle node_id with nid | _ | _ | nid | nid
  · exact ⟨[(node_id, nid)], [], [node_id],
      by simp [create_node_via_api, h], by simp [create_node_via_api, h],
      by simp [create_node_via_api, h], by simp [create_node_via_api, h],
      Or.inl (by simp [create_node_via_api, h, amem_append_singleton])⟩
  · exact ⟨[], [node_id], [],
      by simp [create_node_via_api, h], by simp [create_node_via_api, h],
      by simp [create_node_via_api, h], by simp [create_node_via_api, h],
      Or.inr (Or.inl (by simp [create_node_via_api, h]))⟩
  · exact ⟨[], [], [],
      by simp [create_node_via_api, h], by simp [create_node_via_api, h],
      by simp [create_node_via_api, h], by simp [create_node_via_api, h],
      Or.inr (Or.inr rfl)⟩
  · exact ⟨[(node_id, nid)], [node_id], [node_id],
      by simp [create_node_via_api, h], by simp [create_node_via_api, h],
      by simp [create_node_via_api, h], by simp [create_node_via_api, h],
      Or.inl (by simp [create_node_via_api, h, amem_append_singleton])⟩
  · exact ⟨[(node_id, nid)], [node_id], [],
      by simp [create_node_via_api, h], by simp [create_node_via_api, h],
      by simp [create_node_via_api, h], by simp [create_node_via_api, h],
      Or.inl (by simp [create_node_via_api, h, amem_append_singleton])⟩

theorem create_ready_aux_spec (oracle : String → CreateOutcome)
    (dependencies : List (String × List String)) (l : List String) :
    ∀ (st : CreatorState) (succ : Nat),
      ∃ (log : List (String × List String)) (mext : List (String × String))
        (eext : List String),
        (create_ready_aux oracle dependencies l st succ).1.attempt_log =
          st.attempt_log ++ log ∧
        log.map Prod.fst = l ∧
        (create_ready_aux oracle dependencies l st succ).1.node_id_mapping =
          st.node_id_mapping ++ mext ∧
        (create_ready_aux oracle dependencies l st succ).1.creation_errors =
          st.creation_errors ++ eext ∧
        (∀ p ∈ log, ∃ ext,
          p.2 = (depsOf dependencies p.1).filterMap (alookup (st.node_id_mapping ++ ext))) ∧
        (∀ n ∈ l,
          amem (create_ready_aux oracle dependencies l st succ).1.node_id_mapping n = true ∨
          n ∈ (create_ready_aux oracle dependencies l st succ).1.creation_errors ∨
          oracle n = .noId) := by
  induction l with
  | nil =>
    intro st succ
    exact ⟨[], [], [], by simp [create_ready_aux], rfl, by simp [create_ready_aux],
      by simp [create_ready_aux], by simp, by simp⟩
  | cons n rest ih =>
    intro st succ
    obtain ⟨m1, e1, c1, hm1, he1, _hc1, hl1, hout1⟩ :=
      create_node_effects oracle st n
        ((depsOf dependencies n).filterMap (alookup st.node_id_mapping))
    obtain ⟨log', mext', eext', hlog', hfst', hmap', herr', hext', hout'⟩ :=
      ih (create_node_via_api oracle st n
        ((depsOf dependencies n).filterMap (alookup st.node_id_mapping))).2
        (succ + if (create_node_via_api oracle st n
          ((depsOf dependencies n).filterMap (alookup st.node_id_mapping))).1
          then 1 else 0)
    refine ⟨(n, (depsOf dependencies n).filterMap (alookup st.node_id_mapping)) :: log',
      m1 ++ mext', e1 ++ eext', ?_, ?_, ?_, ?_, ?_, ?_⟩
    · rw [create_ready_aux, hlog', hl1, List.append_assoc]
      rfl
    · rw [List.map_cons, hfst']
    · rw [create_ready_aux, hmap', hm1, List.append_assoc]
    · rw [create_ready_aux, herr', he1, List.append_assoc]
    · intro p hp
      rcases List.mem_cons.1 hp with rfl | hp'
      · exact ⟨[], by rw [List.append_nil]⟩
      · obtain ⟨ext, hext⟩ := hext' p hp'
        rw [hm1, List.append_assoc] at hext
        exact ⟨m1 ++ ext, hext⟩
    · intro x hx
      rcases List.mem_cons.1 hx with rfl | hx'
      · rcases hout1 with h | h | h
        · left
          rw [create_ready_aux, hmap']
          exact amem_append_left _ _ _ h
        · right; left
          rw [create_ready_aux, herr']
          exact List.mem_append.2 (Or.inl h)
        · exact Or.inr (Or.inr h)
      · rw [create_ready_aux]
        exact hout' x hx'

theorem ready_all_mapped (remaining : List String)
    (dependencies : List (String × List String)) (μ : List (String × String))
    (n : String) (h : n ∈ round_ready remaining dependencies μ) :
    ∀ d ∈ depsOf dependencies n, amem μ d = true := by
  have hempty : unsatisfied_deps dependencies μ n = [] :=
    List.isEmpty_iff.1 (List.mem_filter.1 h).2
  intro d hd
  have := List.filter_eq_nil_iff.1 hempty d hd
  simpa using this

theorem filterMap_alookup_of_all_mem (deps : List String)
    (μ ext : List (String × String)) (h : ∀ d ∈ deps, amem μ d = true) :
    deps.filterMap (alookup (μ ++ ext)) = deps.filterMap (alookup μ) :=
  List.filterMap_congr (fun d hd => alookup_append_of_isSome μ ext d (h d hd))

theorem min_unsat_spec (remaining : List String)
    (dependencies : List (String × List String)) (μ : List (String × String))
    (h : remaining ≠ []) :
    (∃ n ∈ remaining,
      (unsatisfied_deps dependencies μ n).length = min_unsat remaining dependencies μ) ∧
    (∀ m ∈ remaining,
      min_unsat remaining dependencies μ ≤ (unsatisfied_deps dependencies μ m).length) := by
  rcases hm : (remaining.map fun n => (unsatisfied_deps dependencies μ n).length).min?
    with _ | m
  · rw [List.min?_eq_none_iff] at hm
    exact absurd hm (by simpa [List.map_eq_nil_iff] using h)
  · obtain ⟨hmem, hle⟩ : m ∈ (remaining.map fun n =>
        (unsatisfied_deps dependencies μ n).length) ∧
        ∀ x ∈ (remaining.map fun n => (unsatisfied_deps dependencies μ n).length),
          m ≤ x := by
      rw [List.min?_eq_some_iff] at hm
      · exact hm
      · exact fun a => le_refl a
      · exact fun a b => min_choice a b
      · exact fun a b c => le_min_iff
    have hmin : min_unsat remaining dependencies μ = m := by
      rw [min_unsat, hm]; rfl
    obtain ⟨n, hn, hfn⟩ := List.mem_map.1 hmem
    refine ⟨⟨n, hn, by rw [hfn, hmin]⟩, ?_⟩
    intro x hx
    rw [hmin]
    exact hle _ (List.mem_map.2 ⟨x, hx, rfl⟩)

theorem mem_round_forced (remaining : List String)
    (dependencies : List (String × List String)) (μ : List (String × String))
    (n : String) (hne : remaining ≠ []) :
    n ∈ round_forced remaining dependencies μ ↔
      n ∈ remaining ∧ ∀ m ∈ remaining,
        (unsatisfied_deps dependencies μ n).length ≤
          (unsatisfied_deps dependencies μ m).length := by
  obtain ⟨⟨n0, hn0, hval⟩, hbound⟩ := min_unsat_spec remaining dependencies μ hne
  constructor
  · intro h
    obtain ⟨hmem, hdec⟩ := List.mem_filter.1 h
    have heq : (unsatisfied_deps dependencies μ n).length =
        min_unsat remaining dependencies μ := of_decide_eq_true hdec
    exact ⟨hmem, fun m hm => heq ▸ hbound m hm⟩
  · intro ⟨hmem, hmin⟩
    refine List.mem_filter.2 ⟨hmem, decide_eq_true ?_⟩
    have h1 : (unsatisfied_deps dependencies μ n).length ≤
        min_unsat remaining dependencies μ := hval ▸ hmin n0 hn0
    exact Nat.le_antisymm h1 (hbound n hmem)

/-! ### C7, C2 claim theorems -/

/-- **C7** — Forced progress and non-blocking predecessors, per round.
The round's attempt log extends the previous one by exactly the selected
nodes.  When some node is ready, the selection is exactly the ready set —
the unprocessed nodes all of whose (in-set) dependencies are in the
identifier mapping — and each is created with predecessor list exactly the
mapped new ids of all of its dependencies (computed through the round-start
mapping; unsatisfied dependencies cannot exist for a ready node, and
absence from the mapping never blocks creation).  When no node is ready but
unprocessed nodes remain, the selection is exactly the nodes attaining the
minimum number of unsatisfied dependencies, and each is created with the
mapped new ids of whichever of its dependencies are mapped at its creation
time (the round-start mapping extended by the round's earlier creations). -/
theorem scheduler_round_spec (oracle : String → CreateOutcome)
    (dependencies : List (String × List String)) (remaining : List String)
    (st : CreatorState) :
    ∃ log : List (String × List String),
      (sched_round oracle dependencies remaining st).2.1.attempt_log =
        st.attempt_log ++ log ∧
      (round_ready remaining dependencies st.node_id_mapping ≠ [] →
        log.map Prod.fst = round_ready remaining dependencies st.node_id_mapping ∧
        ∀ p ∈ log,
          (∀ d ∈ depsOf dependencies p.1, amem st.node_id_mapping d = true) ∧
          p.2 = (depsOf dependencies p.1).filterMap (alookup st.node_id_mapping)) ∧
      (round_ready remaining dependencies st.node_id_mapping = [] → remaining ≠ [] →
        (∀ n ∈ log.map Prod.fst, n ∈ remaining ∧ ∀ m ∈ remaining,
          (unsatisfied_deps dependencies st.node_id_mapping n).length ≤
            (unsatisfied_deps dependencies st.node_id_mapping m).length) ∧
        (∀ n ∈ remaining,
          (∀ m ∈ remaining,
            (unsatisfied_deps dependencies st.node_id_mapping n).length ≤
              (unsatisfied_deps dependencies st.node_id_mapping m).length) →
          n ∈ log.map Prod.fst) ∧
        (∀ p ∈ log, ∃ ext,
          p.2 = (depsOf dependencies p.1).filterMap
            (alookup (st.node_id_mapping ++ ext)))) := by
  obtain ⟨log, mext, eext, hlog, hfst, _hmap, _herr, hext, _hout⟩ :=
    create_ready_aux_spec oracle dependencies
      (round_selection remaining dependencies st.node_id_mapping) st 0
  refine ⟨log, hlog, ?_, ?_⟩
  · intro hready
    have hsel : round_selection remaining dependencies st.node_id_mapping =
        round_ready remaining dependencies st.node_id_mapping := by
      rw [round_selection, if_neg]
      simpa [List.isEmpty_iff] using hready
    refine ⟨by rw [hfst, hsel], ?_⟩
    intro p hp
    have hpr : p.1 ∈ round_ready remaining dependencies st.node_id_mapping := by
      rw [← hsel, ← hfst]
      exact List.mem_map.2 ⟨p, hp, rfl⟩
    have hdeps := ready_all_mapped remaining dependencies st.node_id_mapping p.1 hpr
    obtain ⟨ext, hp2⟩ := hext p hp
    exact ⟨hdeps, by rw [hp2, filterMap_alookup_of_all_mem _ _ _ hdeps]⟩
  · intro hready hne
    have hsel : round_selection remaining dependencies st.node_id_mapping =
        round_forced remaining dependencies st.node_id_mapping := by
      rw [round_selection, if_pos]
      simp [hready]
    rw [hfst, hsel]
    refine ⟨?_, ?_, hext⟩
    · intro n hn
      exact (mem_round_forced remaining dependencies st.node_id_mapping n hne).1 hn
    · intro n hn hmin
      exact (mem_round_forced remaining dependencies st.node_id_mapping n hne).2 ⟨hn, hmin⟩

theorem round_selection_subset (remaining : List String)
    (dependencies : List (String × List String)) (μ : List (String × String)) :
    ∀ n ∈ round_selection remaining dependencies μ, n ∈ remaining := by
  intro n hn
  rw [round_selection] at hn
  split at hn
  · exact List.mem_of_mem_filter hn
  · exact List.mem_of_mem_filter hn

theorem round_selection_nodup (remaining : List String)
    (dependencies : List (String × List String)) (μ : List (String × String))
    (h : remaining.Nodup) : (round_selection remaining dependencies μ).Nodup := by
  rw [round_selection]
  split
  · exact h.filter _
  · exact h.filter _

theorem sched_round_preserves (oracle : String → CreateOutcome)
    (dependencies : List (String × List String)) (remaining : List String)
    (st : CreatorState) (hrem : remaining.Nodup)
    (hdisj : ∀ n ∈ attempted_ids st, n ∉ remaining)
    (hnd : (attempted_ids st).Nodup)
    (hout : ∀ n ∈ attempted_ids st,
      amem st.node_id_mapping n = true ∨ n ∈ st.creation_errors ∨ oracle n = .noId) :
    (sched_round oracle dependencies remaining st).1.Nodup ∧
    (∀ n ∈ attempted_ids (sched_round oracle dependencies remaining st).2.1,
      n ∉ (sched_round oracle dependencies remaining st).1) ∧
    (attempted_ids (sched_round oracle dependencies remaining st).2.1).Nodup ∧
    (∀ n, (n ∈ remaining ∨ n ∈ attempted_ids st) ↔
      (n ∈ attempted_ids (sched_round oracle dependencies remaining st).2.1 ∨
       n ∈ (sched_round oracle dependencies remaining st).1)) ∧
    (∀ n ∈ attempted_ids (sched_round oracle dependencies remaining st).2.1,
      amem (sched_round oracle dependencies remaining st).2.1.node_id_mapping n = true ∨
      n ∈ (sched_round oracle dependencies remaining st).2.1.creation_errors ∨
      oracle n = .noId) := by
  obtain ⟨log, mext, eext, hlog, hfst, hmap, herr, _hext, houtnew⟩ :=
    create_ready_aux_spec oracle dependencies
      (round_selection remaining dependencies st.node_id_mapping) st 0
  have hatt : attempted_ids (sched_round oracle dependencies remaining st).2.1 =
      attempted_ids st ++ round_selection remaining dependencies st.node_id_mapping := by
    rw [attempted_ids, sched_round]
    rw [hlog, List.map_append, hfst]
    rfl
  have hsub := round_selection_subset remaining dependencies st.node_id_mapping
  have hselnd := round_selection_nodup remaining dependencies st.node_id_mapping hrem
  have hrm : (sched_round oracle dependencies remaining st).1 =
      remaining.filter
        (fun x => decide (x ∉ round_selection remaining dependencies st.node_id_mapping)) :=
    rfl
  refine ⟨?_, ?_, ?_, ?_, ?_⟩
  · rw [hrm]; exact hrem.filter _
  · intro n hn hmem
    rw [hatt] at hn
    rcases List.mem_append.1 hn with h | h
    · exact hdisj n h (List.mem_of_mem_filter (hrm ▸ hmem))
    · have := (List.mem_filter.1 (hrm ▸ hmem)).2
      exact (of_decide_eq_true this) h
  · rw [hatt, List.nodup_append]
    exact ⟨hnd, hselnd, fun n hn hsel => hdisj n hn (hsub n hsel)⟩
  · intro n
    rw [hatt, hrm]
    constructor
    · rintro (h | h)
      · by_cases hs : n ∈ round_selection remaining dependencies st.node_id_mapping
        · exact Or.inl (List.mem_append.2 (Or.inr hs))
        · exact Or.inr (List.mem_filter.2 ⟨h, decide_eq_true hs⟩)
      · exact Or.inl (List.mem_append.2 (Or.inl h))
    · rintro (h | h)
      · rcases List.mem_append.1 h with h' | h'
        · exact Or.inr h'
        · exact Or.inl (hsub n h')
      · exact Or.inl (List.mem_of_mem_filter h)
  · intro n hn
    rw [hatt] at hn
    rcases List.mem_append.1 hn with h | h
    · rcases hout n h with h' | h' | h'
      · left
        show amem (create_ready_aux oracle dependencies
          (round_selection remaining dependencies st.node_id_mapping) st 0).1.node_id_mapping
            n = true
        rw [hmap]
        exact amem_append_left _ _ _ h'
      · right; left
        show n ∈ (create_ready_aux oracle dependencies
          (round_selection remaining dependencies st.node_id_mapping) st 0).1.creation_errors
        rw [herr]
        exact List.mem_append.2 (Or.inl h')
      · exact Or.inr (Or.inr h')
    · exact houtnew n h

theorem sched_loop_spec (oracle : String → CreateOutcome)
    (dependencies : List (String × List String)) :
    ∀ (fuel : Nat) (remaining : List String) (st : CreatorState),
      remaining.Nodup →
      (∀ n ∈ attempted_ids st, n ∉ remaining) →
      (attempted_ids st).Nodup →
      (∀ n ∈ attempted_ids st,
        amem st.node_id_mapping n = true ∨ n ∈ st.creation_errors ∨ oracle n = .noId) →
      (attempted_ids (sched_loop oracle dependencies fuel remaining st).2).Nodup ∧
      (∀ n, (n ∈ remaining ∨ n ∈ attempted_ids st) ↔
        (n ∈ attempted_ids (sched_loop oracle dependencies fuel remaining st).2 ∨
         n ∈ (sched_loop oracle dependencies fuel remaining st).1)) ∧
      (∀ n ∈ attempted_ids (sched_loop oracle dependencies fuel remaining st).2,
        n ∉ (sched_loop oracle dependencies fuel remaining st).1) ∧
      (∀ n ∈ attempted_ids (sched_loop oracle dependencies fuel remaining st).2,
        amem (sched_loop oracle dependencies fuel remaining st).2.node_id_mapping n = true ∨
        n ∈ (sched_loop oracle dependencies fuel remaining st).2.creation_errors ∨
        oracle n = .noId) := by
  intro fuel
  induction fuel with
  | zero =>
    intro remaining st hrem hdisj hnd hout
    exact ⟨hnd, fun n => or_comm, fun n hn => hdisj n hn, hout⟩
  | succ k ih =>
    intro remaining st hrem hdisj hnd hout
    rw [sched_loop]
    by_cases hempty : remaining.isEmpty = true
    · rw [if_pos hempty]
      exact ⟨hnd, fun n => or_comm, fun n hn => hdisj n hn, hout⟩
    · rw [if_neg hempty]
      obtain ⟨hrm', hdisj', hnd', hpart', hout'⟩ :=
        sched_round_preserves oracle dependencies remaining st hrem hdisj hnd hout
      by_cases hbreak : (sched_round oracle dependencies remaining st).2.2 = 0 ∧
          (sched_round oracle dependencies remaining st).1 ≠ []
      · rw [if_pos hbreak]
        exact ⟨hnd', hpart', hdisj', hout'⟩
      · rw [if_neg hbreak]
        obtain ⟨ihnd, ihpart, ihdisj, ihout⟩ :=
          ih (sched_round oracle dependencies remaining st).1
            (sched_round oracle dependencies remaining st).2.1 hrm'
            hdisj' hnd' hout'
        refine ⟨ihnd, ?_, ihdisj, ihout⟩
        intro n
        rw [hpart' n, or_comm]
        exact ihpart n

/-- **C2 counterexample** — scheduler completeness fails as stated: with
nodes `node-a`, `node-b` where `node-b` depends on `node-a` and a platform
on which every POST fails, the first round attempts only `node-a`, records
its error, and — the round having zero successes with nodes remaining —
the scheduler stops: `node-b` ends up in neither the identifier mapping nor
the creation-error list. -/
theorem scheduler_completeness_counterexample :
    amem (create_nodes_in_dependency_order (fun _ => CreateOutcome.postFailed)
      ["node-a", "node-b"] [("node-b", ["node-a"])]).2.node_id_mapping "node-b" = false ∧
    "node-b" ∉ (create_nodes_in_dependency_order (fun _ => CreateOutcome.postFailed)
      ["node-a", "node-b"] [("node-b", ["node-a"])]).2.creation_errors ∧
    "node-b" ∈ (create_nodes_in_dependency_order (fun _ => CreateOutcome.postFailed)
      ["node-a", "node-b"] [("node-b", ["node-a"])]).1 := by
  refine ⟨by decide, by decide, by decide⟩

/-- **C2 amended** — Scheduler completeness, as the code behaves: the nodes
given to the scheduler split exactly into the attempted ones and the
leftover remaining set (leftovers exist only when the scheduler stopped
after a zero-success round, or at the round bound); every node is attempted
at most once; and every attempted node appears in the identifier mapping
(its POST returned an id — including the case where the configuration PUT
then failed, which also records an error, so a node can be in both), or in
the creation-error list (POST failure or exception), or — when the platform
answered 2xx without an id — in neither. -/
theorem scheduler_completeness_amended (oracle : String → CreateOutcome)
    (dependencies : List (String × List String)) (all_node_ids : List String)
    (hnd : all_node_ids.Nodup) :
    (attempted_ids
      (create_nodes_in_dependency_order oracle all_node_ids dependencies).2).Nodup ∧
    (∀ n, n ∈ all_node_ids ↔
      (n ∈ attempted_ids
        (create_nodes_in_dependency_order oracle all_node_ids dependencies).2 ∨
       n ∈ (create_nodes_in_dependency_order oracle all_node_ids dependencies).1)) ∧
    (∀ n ∈ attempted_ids
        (create_nodes_in_dependency_order oracle all_node_ids dependencies).2,
      n ∉ (create_nodes_in_dependency_order oracle all_node_ids dependencies).1) ∧
    (∀ n ∈ attempted_ids
        (create_nodes_in_dependency_order oracle all_node_ids dependencies).2,
      amem (create_nodes_in_dependency_order oracle
        all_node_ids dependencies).2.node_id_mapping n = true ∨
      n ∈ (create_nodes_in_dependency_order oracle
        all_node_ids dependencies).2.creation_errors ∨
      oracle n = .noId) := by
  obtain ⟨h1, h2, h3, h4⟩ := sched_loop_spec oracle dependencies
    (all_node_ids.length + 10) all_node_ids ⟨[], [], [], []⟩ hnd
    (by intro n hn; cases hn) (by exact List.nodup_nil) (by intro n hn; cases hn)
  refine ⟨h1, ?_, h3, h4⟩
  intro n
  have := h2 n
  simpa [attempted_ids] using this

/-- Witness for `scheduler_completeness_amended`: a single node `n1` with
no dependencies on a platform that always succeeds. -/
theorem scheduler_completeness_amended_witness :
    (attempted_ids
      (create_nodes_in_dependency_order (fun _ => CreateOutcome.created "new-1")
        ["n1"] []).2).Nodup ∧
    (∀ n, n ∈ ["n1"] ↔
      (n ∈ attempted_ids
        (create_nodes_in_dependency_order (fun _ => CreateOutcome.created "new-1")
          ["n1"] []).2 ∨
       n ∈ (create_nodes_in_dependency_order (fun _ => CreateOutcome.created "new-1")
          ["n1"] []).1)) ∧
    (∀ n ∈ attempted_ids
        (create_nodes_in_dependency_order (fun _ => CreateOutcome.created "new-1")
          ["n1"] []).2,
      n ∉ (create_nodes_in_dependency_order (fun _ => CreateOutcome.created "new-1")
        ["n1"] []).1) ∧
    (∀ n ∈ attempted_ids
        (create_nodes_in_dependency_order (fun _ => CreateOutcome.created "new-1")
          ["n1"] []).2,
      amem (create_nodes_in_dependency_order (fun _ => CreateOutcome.created "new-1")
        ["n1"] []).2.node_id_mapping n = true ∨
      n ∈ (create_nodes_in_dependency_order (fun _ => CreateOutcome.created "new-1")
        ["n1"] []).2.creation_errors ∨
      (fun _ => CreateOutcome.created "new-1") n = .noId) :=
  scheduler_completeness_amended (fun _ => CreateOutcome.created "new-1") []
    ["n1"] (by decide)

/-- Witness for `scheduler_round_spec` (its ready-branch hypothesis) at a
concrete two-node input where `n1` is ready and `n2` is not. -/
theorem scheduler_round_spec_witness :
    ∃ log : List (String × List String),
      (sched_round (fun _ => CreateOutcome.created "x-1") [("n2", ["n1"])]
        ["n1", "n2"] ⟨[], [], [], []⟩).2.1.attempt_log = [] ++ log ∧
      log.map Prod.fst = round_ready ["n1", "n2"] [("n2", ["n1"])] [] := by
  obtain ⟨log, h1, h2, _⟩ := scheduler_round_spec (fun _ => CreateOutcome.created "x-1")
    [("n2", ["n1"])] ["n1", "n2"] ⟨[], [], [], []⟩
  exact ⟨log, h1, (h2 (by decide)).1⟩

/-! ### C10: dependency-analysis invariants -/

theorem mem_insertSeen (acc : List String) (y x : String) :
    x ∈ insertSeen acc y ↔ x ∈ acc ∨ x = y := by
  by_cases h : y ∈ acc
  · rw [insertSeen, if_pos h]
    constructor
    · exact Or.inl
    · rintro (hx | rfl)
      · exact hx
      · exact h
  · rw [insertSeen, if_neg h]
    simp

theorem mem_foldl_of_inner {α : Type} (F : List String → α → List String)
    (Q : α → String → Prop)
    (H : ∀ acc a x, x ∈ F acc a ↔ x ∈ acc ∨ Q a x) (l : List α) :
    ∀ (acc : List String) (x : String),
      x ∈ l.foldl F acc ↔ x ∈ acc ∨ ∃ a ∈ l, Q a x := by
  induction l with
  | nil => intro acc x; simp
  | cons b bs ih =>
    intro acc x
    rw [List.foldl_cons, ih (F acc b) x, H acc b x]
    constructor
    · rintro ((h | h) | ⟨a, ha, hq⟩)
      · exact Or.inl h
      · exact Or.inr ⟨b, List.mem_cons_self _ _, h⟩
      · exact Or.inr ⟨a, List.mem_cons_of_mem _ ha, hq⟩
    · rintro (h | ⟨a, ha, hq⟩)
      · exact Or.inl (Or.inl h)
      · rcases List.mem_cons.1 ha with rfl | ha'
        · exact Or.inl (Or.inr hq)
        · exact Or.inr ⟨a, ha', hq⟩

theorem mem_node_predecessors (node_id : String) (md : Metadata) (x : String) :
    x ∈ node_predecessors node_id md ↔
      ∃ c ∈ md.columns, ∃ s ∈ c.sources, ∃ r ∈ s.columnReferences,
        r.nodeID = x ∧ x ≠ "" ∧ x ≠ node_id := by
  have H3 : ∀ (acc : List String) (r : ColumnReference) (x : String),
      x ∈ (if r.nodeID ≠ "" ∧ r.nodeID ≠ node_id then insertSeen acc r.nodeID else acc) ↔
      x ∈ acc ∨ (r.nodeID = x ∧ x ≠ "" ∧ x ≠ node_id) := by
    intro acc r y
    by_cases hp : r.nodeID ≠ "" ∧ r.nodeID ≠ node_id
    · rw [if_pos hp, mem_insertSeen]
      constructor
      · rintro (h | rfl)
        · exact Or.inl h
        · exact Or.inr ⟨rfl, hp.1, hp.2⟩
      · rintro (h | ⟨rfl, _, _⟩)
        · exact Or.inl h
        · exact Or.inr rfl
    · rw [if_neg hp]
      constructor
      · exact Or.inl
      · rintro (h | ⟨heq, h1, h2⟩)
        · exact h
        · exact absurd ⟨heq ▸ h1, heq ▸ h2⟩ hp
  have H2 : ∀ (acc : List String) (s : ColumnSource) (x : String),
      x ∈ s.columnReferences.foldl
        (fun acc3 r =>
          if r.nodeID ≠ "" ∧ r.nodeID ≠ node_id then insertSeen acc3 r.nodeID else acc3)
        acc ↔
      x ∈ acc ∨ ∃ r ∈ s.columnReferences, r.nodeID = x ∧ x ≠ "" ∧ x ≠ node_id := by
    intro acc s y
    exact mem_foldl_of_inner _ _ (fun a r z => H3 a r z) s.columnReferences acc y
  have H1 : ∀ (acc : List String) (c : Column) (x : String),
      x ∈ c.sources.foldl
        (fun acc2 s =>
          s.columnReferences.foldl
            (fun acc3 r =>
              if r.nodeID ≠ "" ∧ r.nodeID ≠ node_id then insertSeen acc3 r.nodeID else acc3)
            acc2)
        acc ↔
      x ∈ acc ∨ ∃ s ∈ c.sources, ∃ r ∈ s.columnReferences,
        r.nodeID = x ∧ x ≠ "" ∧ x ≠ node_id := by
    intro acc c y
    exact mem_foldl_of_inner _ _ (fun a s z => H2 a s z) c.sources acc y
  have := mem_foldl_of_inner _ _ (fun a c z => H1 a c z) md.columns [] x
  rw [node_predecessors, this]
  simp

/-- **C10** — Dependency-analysis output invariant: no node's dependency
list contains its own id, and every listed dependency is itself a key of
the input node set.  Consequently a node whose column references point only
at itself or at out-of-set ids gets an empty dependency list, is in the
scheduler's ready set in the very first round for any mapping, and that
ready set is nonempty — so a pure self-cycle never triggers forced
progress. -/
theorem dependency_analysis_invariant (all_nodes : List (String × Metadata))
    (hnd : (all_nodes.map Prod.fst).Nodup) :
    (∀ p ∈ analyze_dependencies all_nodes,
      p.1 ∉ p.2 ∧ ∀ d ∈ p.2, amem all_nodes d = true) ∧
    (∀ n md, (n, md) ∈ all_nodes →
      (∀ c ∈ md.columns, ∀ s ∈ c.sources, ∀ r ∈ s.columnReferences,
        r.nodeID = n ∨ amem all_nodes r.nodeID = false) →
      alookup (analyze_dependencies all_nodes) n = some [] ∧
      ∀ μ : List (String × String),
        n ∈ round_ready (all_nodes.map Prod.fst) (analyze_dependencies all_nodes) μ ∧
        round_ready (all_nodes.map Prod.fst) (analyze_dependencies all_nodes) μ ≠ []) := by
  constructor
  · intro p hp
    obtain ⟨q, hq, rfl⟩ := List.mem_map.1 hp
    constructor
    · intro hmem
      have hpred := List.mem_of_mem_filter hmem
      obtain ⟨c, _, s, _, r, _, _, _, hneq⟩ :=
        (mem_node_predecessors q.1 q.2 q.1).1 hpred
      exact hneq rfl
    · intro d hd
      exact (List.mem_filter.1 hd).2
  · intro n md hmem hrefs
    have hkeys : (analyze_dependencies all_nodes).map Prod.fst = all_nodes.map Prod.fst := by
      rw [analyze_dependencies, List.map_map]
      rfl
    have hentry : (n, (node_predecessors n md).filter
        (fun pid => amem all_nodes pid)) ∈ analyze_dependencies all_nodes :=
      List.mem_map.2 ⟨(n, md), hmem, rfl⟩
    have hfilter : (node_predecessors n md).filter (fun pid => amem all_nodes pid) = [] := by
      rw [List.filter_eq_nil_iff]
      intro x hx
      obtain ⟨c, hc, s, hs, r, hr, hrx, hx0, hxn⟩ :=
        (mem_node_predecessors n md x).1 hx
      rcases hrefs c hc s hs r hr with h | h
      · exact absurd (hrx ▸ h) hxn
      · rw [hrx] at h
        simp [h]
    have hlook : alookup (analyze_dependencies all_nodes) n = some [] := by
      have := alookup_eq_some_of_mem (analyze_dependencies all_nodes) n
        ((node_predecessors n md).filter (fun pid => amem all_nodes pid))
        (by rw [hkeys]; exact hnd) hentry
      rw [hfilter] at this
      exact this
    refine ⟨hlook, ?_⟩
    intro μ
    have hready : n ∈ round_ready (all_nodes.map Prod.fst)
        (analyze_dependencies all_nodes) μ := by
      refine List.mem_filter.2 ⟨List.mem_map.2 ⟨(n, md), hmem, rfl⟩, ?_⟩
      rw [unsatisfied_deps, depsOf, hlook]
      rfl
    exact ⟨hready, List.ne_nil_of_mem hready⟩

/-- A pure self-cycle plus an out-of-set reference, for the C10 witness. -/
def selfMd : Metadata :=
  { columns :=
      [{ name := "K"
         dataType := "VARCHAR"
         nullable := true
         description := ""
         columnID := none
         defaultValue := none
         primaryKey := none
         sources :=
           [{ transform := "K"
              columnReferences :=
                [{ nodeID := "self-1", columnID := "1" },
                 { nodeID := "other-9", columnID := "2" }] }]
         config := none }]
    sourceMapping := []
    cteString := none
    appliedNodeTests := none
    enabledColumnTestIDs := none }

/-- Witness for `dependency_analysis_invariant`: a single node `self-1`
whose lineage references only itself and the out-of-set id `other-9`. -/
theorem dependency_analysis_invariant_witness :
    alookup (analyze_dependencies [("self-1", selfMd)]) "self-1" = some [] ∧
    "self-1" ∈ round_ready (List.map Prod.fst [("self-1", selfMd)])
      (analyze_dependencies [("self-1", selfMd)]) [] ∧
    round_ready (List.map Prod.fst [("self-1", selfMd)])
      (analyze_dependencies [("self-1", selfMd)]) [] ≠ [] := by
  have h := (dependency_analysis_invariant [("self-1", selfMd)] (by decide)).2
    "self-1" selfMd (by decide) (by decide)
  exact ⟨h.1, (h.2 []).1, (h.2 []).2⟩

end Migration
